import Mathlib

set_option maxRecDepth 4000

/-!
Verification of the webrp reverse-tunnel server and client.

This file gives a shallow embedding of the core of the repository:

* `src/server/app.ts` — the public-request dispatcher (`app.all("/*")`),
  the response assembler (`processResponseMessage`), the client registry
  and the control-socket listeners (`open` / `message` / `close`);
* `src/client/proxy.ts` — the client-side request executor
  (`processRequestMessage`) and frame sender (`respond`);
* `src/header.ts` — the frame shapes, together with a MessagePack codec
  modelled from the specification (the actual codec is the external
  `msgpackr` library; the spec fixes MessagePack as the reference
  encoding).

Strings coming from the wire are modelled as UTF-8 byte lists where the
codec is concerned, and as Lean `String`s in the behavioural model.
JavaScript `Map`s keyed by strings are modelled as functions
`String → Option _`; the client registry (a plain JS object whose key
order is insertion order for opaque, non-index keys) is modelled as an
association list in insertion order.
-/

namespace Webrp

/-! ## JavaScript-flavoured helpers -/

/-- JS truthiness of a possibly-absent string (`undefined` ↦ `none`,
`""` is falsy). -/
def truthyStr : Option String → Bool
  | none => false
  | some s => s ≠ ""

/-- JS `a || b` on possibly-absent strings: `b` whenever `a` is falsy. -/
def falsyOr (a b : Option String) : Option String :=
  if truthyStr a then a else b

/-- `stripStart` from `@ayonli/jsext/string`: remove the prefix when
present, otherwise return the string unchanged. -/
def stripStart (s pre : String) : String :=
  if pre.isPrefixOf s then s.drop pre.length else s

/-- Boolean environment parsing used by `app.ts`:
`value?.toLowerCase().match(/^(true|on|1)$/)`. -/
def envBool : Option String → Bool
  | none => false
  | some s => s.toLower = "true" || s.toLower = "on" || s.toLower = "1"

/-- UTF-8 bytes of one character (standard encoding, as used by the
WebSocket transport for string payloads). -/
def charUtf8 (c : Char) : List Nat :=
  let n := c.toNat
  if n < 0x80 then [n]
  else if n < 0x800 then [0xc0 + n / 64, 0x80 + n % 64]
  else if n < 0x10000 then [0xe0 + n / 4096, 0x80 + n / 64 % 64, 0x80 + n % 64]
  else [0xf0 + n / 262144, 0x80 + n / 4096 % 64, 0x80 + n / 64 % 64, 0x80 + n % 64]

/-- UTF-8 bytes of a string. -/
def utf8Bytes (s : String) : List Nat :=
  s.data.flatMap charUtf8

/-! ## CRC32 (`crc32` from `@ayonli/jsext/hash`)

The standard IEEE CRC-32: reflected polynomial `0xEDB88320`, initial
value `0xFFFFFFFF`, final xor `0xFFFFFFFF`, over the UTF-8 bytes of the
input string. -/

/-- One bit step of CRC-32. -/
def crc32Bit (c : Nat) : Nat :=
  if c % 2 = 1 then (c / 2) ^^^ 0xEDB88320 else c / 2

/-- Fold one byte into the CRC accumulator (8 bit steps). -/
def crc32Byte (c b : Nat) : Nat :=
  crc32Bit^[8] (c ^^^ b)

/-- CRC-32 of a byte sequence. -/
def crc32 (bytes : List Nat) : Nat :=
  (bytes.foldl crc32Byte 0xFFFFFFFF) ^^^ 0xFFFFFFFF

/-- CRC-32 of a string (the form used on the caller's IP). -/
def crc32Str (s : String) : Nat :=
  crc32 (utf8Bytes s)

/-! ## MessagePack codec

Modelled from the spec: the repository serialises frames with the
external `msgpackr` library, whose code is not part of this repository;
the spec fixes MessagePack as the reference encoding ("Frames are
encoded as a compact binary record format with labelled fields
(MessagePack is the reference encoding)").  `MpVal` is the value domain
the frames inhabit (maps with string keys, strings, byte arrays,
booleans, unsigned integers, arrays, nil, and the `0xc1` token msgpackr
uses for `undefined`).  Tags the encoder never produces (signed
integers, floats, ext types) are not modelled and are rejected by the
decoder. -/

inductive MpVal where
  | nil
  | undefv
  | bool (b : Bool)
  | uint (n : Nat)
  | str (s : List Nat)
  | bin (b : List Nat)
  | arr (xs : List MpVal)
  | map (kvs : List (List Nat × MpVal))

/-- Big-endian byte expansion: `beBytes k n` is the `k`-byte big-endian
encoding of `n` (mod `256 ^ k`). -/
def beBytes : Nat → Nat → List Nat
  | 0, _ => []
  | k + 1, n => beBytes k (n / 256) ++ [n % 256]

/-- Recombine big-endian bytes into a number. -/
def beNat (bs : List Nat) : Nat :=
  bs.foldl (fun a b => a * 256 + b) 0

/-- MessagePack header for a string of length `l`. -/
def strHeader (l : Nat) : List Nat :=
  if l < 32 then [0xa0 + l]
  else if l < 256 then [0xd9, l]
  else if l < 65536 then 0xda :: beBytes 2 l
  else 0xdb :: beBytes 4 l

/-- MessagePack header for a byte array of length `l`. -/
def binHeader (l : Nat) : List Nat :=
  if l < 256 then [0xc4, l]
  else if l < 65536 then 0xc5 :: beBytes 2 l
  else 0xc6 :: beBytes 4 l

/-- MessagePack header for an array of `l` elements. -/
def arrHeader (l : Nat) : List Nat :=
  if l < 16 then [0x90 + l]
  else if l < 65536 then 0xdc :: beBytes 2 l
  else 0xdd :: beBytes 4 l

/-- MessagePack header for a map of `l` entries. -/
def mapHeader (l : Nat) : List Nat :=
  if l < 16 then [0x80 + l]
  else if l < 65536 then 0xde :: beBytes 2 l
  else 0xdf :: beBytes 4 l

/-- MessagePack encoding of an unsigned integer. -/
def uintBytes (n : Nat) : List Nat :=
  if n < 128 then [n]
  else if n < 256 then [0xcc, n]
  else if n < 65536 then 0xcd :: beBytes 2 n
  else if n < 4294967296 then 0xce :: beBytes 4 n
  else 0xcf :: beBytes 8 n

mutual

/-- MessagePack encoding of a value. -/
def encodeVal : MpVal → List Nat
  | .nil => [0xc0]
  | .undefv => [0xc1]
  | .bool false => [0xc2]
  | .bool true => [0xc3]
  | .uint n => uintBytes n
  | .str s => strHeader s.length ++ s
  | .bin b => binHeader b.length ++ b
  | .arr xs => arrHeader xs.length ++ encodeList xs
  | .map kvs => mapHeader kvs.length ++ encodeEntries kvs

/-- Encoding of the elements of an array, in order. -/
def encodeList : List MpVal → List Nat
  | [] => []
  | v :: tl => encodeVal v ++ encodeList tl

/-- Encoding of the entries of a map: string key then value, in order. -/
def encodeEntries : List (List Nat × MpVal) → List Nat
  | [] => []
  | (k, v) :: tl => (strHeader k.length ++ k) ++ encodeVal v ++ encodeEntries tl

end

mutual

/-- Node count of a value; fuel bound for the decoder. -/
def mpSize : MpVal → Nat
  | .nil => 1
  | .undefv => 1
  | .bool _ => 1
  | .uint _ => 1
  | .str _ => 1
  | .bin _ => 1
  | .arr xs => 1 + mpSizeList xs
  | .map kvs => 1 + mpSizeEntries kvs

def mpSizeList : List MpVal → Nat
  | [] => 0
  | v :: tl => mpSize v + mpSizeList tl

def mpSizeEntries : List (List Nat × MpVal) → Nat
  | [] => 0
  | (_, v) :: tl => 1 + mpSize v + mpSizeEntries tl

end

mutual

/-- Well-formedness: every byte is a byte and every length fits its
largest MessagePack length field. -/
def mpWf : MpVal → Bool
  | .nil => true
  | .undefv => true
  | .bool _ => true
  | .uint n => n < 2 ^ 64
  | .str s => s.all (· < 256) && s.length < 4294967296
  | .bin b => b.all (· < 256) && b.length < 4294967296
  | .arr xs => xs.length < 4294967296 && mpWfList xs
  | .map kvs => kvs.length < 4294967296 && mpWfEntries kvs

def mpWfList : List MpVal → Bool
  | [] => true
  | v :: tl => mpWf v && mpWfList tl

def mpWfEntries : List (List Nat × MpVal) → Bool
  | [] => true
  | (k, v) :: tl =>
    k.all (· < 256) && k.length < 4294967296 && mpWf v && mpWfEntries tl

end

/-- Read exactly `n` bytes. -/
def readN (n : Nat) (bs : List Nat) : Option (List Nat × List Nat) :=
  if n ≤ bs.length then some (bs.take n, bs.drop n) else none

/-- Require a decoded value to be a string (map keys). -/
def asStrVal : MpVal → Option (List Nat)
  | .str s => some s
  | _ => none

mutual

/-- Fuel-indexed MessagePack decoder for one value. -/
def decodeVal : Nat → List Nat → Option (MpVal × List Nat)
  | 0, _ => none
  | _ + 1, [] => none
  | fuel + 1, b :: bs =>
    if b ≤ 0x7f then some (.uint b, bs)
    else if b ≤ 0x8f then
      (decodeMapSeq fuel (b - 0x80) bs).map fun p => (.map p.1, p.2)
    else if b ≤ 0x9f then
      (decodeArrSeq fuel (b - 0x90) bs).map fun p => (.arr p.1, p.2)
    else if b ≤ 0xbf then
      (readN (b - 0xa0) bs).map fun p => (.str p.1, p.2)
    else if b = 0xc0 then some (.nil, bs)
    else if b = 0xc1 then some (.undefv, bs)
    else if b = 0xc2 then some (.bool false, bs)
    else if b = 0xc3 then some (.bool true, bs)
    else if b = 0xc4 then
      (readN 1 bs).bind fun p =>
        (readN (beNat p.1) p.2).map fun q => (.bin q.1, q.2)
    else if b = 0xc5 then
      (readN 2 bs).bind fun p =>
        (readN (beNat p.1) p.2).map fun q => (.bin q.1, q.2)
    else if b = 0xc6 then
      (readN 4 bs).bind fun p =>
        (readN (beNat p.1) p.2).map fun q => (.bin q.1, q.2)
    else if b = 0xcc then
      (readN 1 bs).map fun p => (.uint (beNat p.1), p.2)
    else if b = 0xcd then (readN 2 bs).map fun p => (.uint (beNat p.1), p.2)
    else if b = 0xce then (readN 4 bs).map fun p => (.uint (beNat p.1), p.2)
    else if b = 0xcf then (readN 8 bs).map fun p => (.uint (beNat p.1), p.2)
    else if b = 0xd9 then
      (readN 1 bs).bind fun p =>
        (readN (beNat p.1) p.2).map fun q => (.str q.1, q.2)
    else if b = 0xda then
      (readN 2 bs).bind fun p =>
        (readN (beNat p.1) p.2).map fun q => (.str q.1, q.2)
    else if b = 0xdb then
      (readN 4 bs).bind fun p =>
        (readN (beNat p.1) p.2).map fun q => (.str q.1, q.2)
    else if b = 0xdc then
      (readN 2 bs).bind fun p =>
        (decodeArrSeq fuel (beNat p.1) p.2).map fun q => (.arr q.1, q.2)
    else if b = 0xdd then
      (readN 4 bs).bind fun p =>
        (decodeArrSeq fuel (beNat p.1) p.2).map fun q => (.arr q.1, q.2)
    else if b = 0xde then
      (readN 2 bs).bind fun p =>
        (decodeMapSeq fuel (beNat p.1) p.2).map fun q => (.map q.1, q.2)
    else if b = 0xdf then
      (readN 4 bs).bind fun p =>
        (decodeMapSeq fuel (beNat p.1) p.2).map fun q => (.map q.1, q.2)
    else none
termination_by fuel _ => (fuel, 0)

/-- Decode `n` consecutive array elements. -/
def decodeArrSeq : Nat → Nat → List Nat → Option (List MpVal × List Nat)
  | _, 0, bs => some ([], bs)
  | fuel, n + 1, bs =>
    (decodeVal fuel bs).bind fun p =>
      (decodeArrSeq fuel n p.2).map fun q => (p.1 :: q.1, q.2)
termination_by fuel n _ => (fuel, n + 1)

/-- Decode `n` consecutive map entries (string key, then value). -/
def decodeMapSeq : Nat → Nat → List Nat → Option (List (List Nat × MpVal) × List Nat)
  | _, 0, bs => some ([], bs)
  | fuel, n + 1, bs =>
    (decodeVal fuel bs).bind fun kp =>
      (asStrVal kp.1).bind fun k =>
        (decodeVal fuel kp.2).bind fun vp =>
          (decodeMapSeq fuel n vp.2).map fun q => ((k, vp.1) :: q.1, q.2)
termination_by fuel n _ => (fuel, n + 1)

end

/-- `unpack` from msgpackr, over byte lists: decode one value (the input
length is enough fuel, since every node of a value occupies at least one
byte of its encoding). -/
def unpack (bs : List Nat) : Option MpVal :=
  (decodeVal bs.length bs).map Prod.fst

/-! ### Codec roundtrip lemmas -/

theorem readN_len (n : Nat) (xs r : List Nat) (h : xs.length = n) :
    readN n (xs ++ r) = some (xs, r) := by
  subst h
  simp [readN]

theorem beBytes_length (k n : Nat) : (beBytes k n).length = k := by
  induction k generalizing n with
  | zero => rfl
  | succ k ih => simp [beBytes, ih]

theorem beNat_beBytes (k n : Nat) (h : n < 256 ^ k) : beNat (beBytes k n) = n := by
  induction k generalizing n with
  | zero =>
    simp [beBytes, beNat]
    omega
  | succ k ih =>
    have h2 : n / 256 < 256 ^ k := by
      rw [Nat.div_lt_iff_lt_mul (by norm_num)]
      calc n < 256 ^ (k + 1) := h
        _ = 256 ^ k * 256 := by ring
    have h3 : beNat (beBytes (k + 1) n) = beNat (beBytes k (n / 256)) * 256 + n % 256 := by
      simp [beBytes, beNat, List.foldl_append]
    rw [h3, ih (n / 256) h2]
    omega

theorem beNat_single (n : Nat) : beNat [n] = n := by
  simp [beNat]

theorem decode_uintBytes (fuel n : Nat) (bs : List Nat) (h : n < 2 ^ 64) :
    decodeVal (fuel + 1) (uintBytes n ++ bs) = some (.uint n, bs) := by
  rw [uintBytes]
  split_ifs with h1 h2 h3 h4
  · simp only [List.cons_append, List.nil_append]
    rw [decodeVal.eq_3, if_pos (by omega)]
  · simp only [List.cons_append, List.nil_append]
    rw [decodeVal.eq_3]
    norm_num
    rw [show (n : Nat) :: bs = [n] ++ bs from rfl, readN_len 1 [n] bs rfl]
    exact ⟨[n], rfl, beNat_single n⟩
  · simp only [List.cons_append, List.nil_append]
    rw [decodeVal.eq_3]
    norm_num
    rw [readN_len 2 (beBytes 2 n) bs (beBytes_length 2 n)]
    exact ⟨beBytes 2 n, rfl, beNat_beBytes 2 n (by omega)⟩
  · simp only [List.cons_append, List.nil_append]
    rw [decodeVal.eq_3]
    norm_num
    rw [readN_len 4 (beBytes 4 n) bs (beBytes_length 4 n)]
    exact ⟨beBytes 4 n, rfl, beNat_beBytes 4 n (by omega)⟩
  · simp only [List.cons_append, List.nil_append]
    rw [decodeVal.eq_3]
    norm_num
    rw [readN_len 8 (beBytes 8 n) bs (beBytes_length 8 n)]
    exact ⟨beBytes 8 n, rfl, beNat_beBytes 8 n (by norm_num at h ⊢; omega)⟩

theorem decode_strHeader (fuel : Nat) (s bs : List Nat) (h : s.length < 4294967296) :
    decodeVal (fuel + 1) ((strHeader s.length ++ s) ++ bs) = some (.str s, bs) := by
  have e1 : readN s.length (s ++ bs) = some (s, bs) := readN_len s.length s bs rfl
  rw [strHeader]
  split_ifs with h1 h2 h3
  · simp only [List.cons_append, List.nil_append]
    rw [decodeVal.eq_3]
    rw [if_neg (by omega), if_neg (by omega), if_neg (by omega), if_pos (by omega)]
    rw [show 0xa0 + s.length - 0xa0 = s.length from by omega, e1]
    rfl
  · simp only [List.cons_append, List.nil_append, List.append_assoc]
    rw [decodeVal.eq_3]
    norm_num
    rw [show (s.length :: (s ++ bs) : List Nat) = [s.length] ++ (s ++ bs) from rfl,
      readN_len 1 [s.length] (s ++ bs) rfl]
    simp [beNat_single, e1]
  · have e2 := beNat_beBytes 2 s.length (by omega)
    simp only [List.cons_append, List.nil_append, List.append_assoc]
    rw [decodeVal.eq_3]
    norm_num
    rw [readN_len 2 (beBytes 2 s.length) (s ++ bs) (beBytes_length 2 s.length)]
    simp [e2, e1]
  · have e2 := beNat_beBytes 4 s.length (by omega)
    simp only [List.cons_append, List.nil_append, List.append_assoc]
    rw [decodeVal.eq_3]
    norm_num
    rw [readN_len 4 (beBytes 4 s.length) (s ++ bs) (beBytes_length 4 s.length)]
    simp [e2, e1]

theorem decode_binHeader (fuel : Nat) (s bs : List Nat) (h : s.length < 4294967296) :
    decodeVal (fuel + 1) ((binHeader s.length ++ s) ++ bs) = some (.bin s, bs) := by
  have e1 : readN s.length (s ++ bs) = some (s, bs) := readN_len s.length s bs rfl
  rw [binHeader]
  split_ifs with h1 h2
  · simp only [List.cons_append, List.nil_append, List.append_assoc]
    rw [decodeVal.eq_3]
    norm_num
    rw [show (s.length :: (s ++ bs) : List Nat) = [s.length] ++ (s ++ bs) from rfl,
      readN_len 1 [s.length] (s ++ bs) rfl]
    simp [beNat_single, e1]
  · have e2 := beNat_beBytes 2 s.length (by omega)
    simp only [List.cons_append, List.nil_append, List.append_assoc]
    rw [decodeVal.eq_3]
    norm_num
    rw [readN_len 2 (beBytes 2 s.length) (s ++ bs) (beBytes_length 2 s.length)]
    simp [e2, e1]
  · have e2 := beNat_beBytes 4 s.length (by omega)
    simp only [List.cons_append, List.nil_append, List.append_assoc]
    rw [decodeVal.eq_3]
    norm_num
    rw [readN_len 4 (beBytes 4 s.length) (s ++ bs) (beBytes_length 4 s.length)]
    simp [e2, e1]

theorem decode_arrHeader (fuel l : Nat) (body bs : List Nat) (h : l < 4294967296) :
    decodeVal (fuel + 1) ((arrHeader l ++ body) ++ bs) =
      (decodeArrSeq fuel l (body ++ bs)).map fun p => (.arr p.1, p.2) := by
  rw [arrHeader]
  split_ifs with h1 h2
  · simp only [List.cons_append, List.nil_append, List.append_assoc]
    rw [decodeVal.eq_3]
    rw [if_neg (by omega), if_neg (by omega), if_pos (by omega)]
    rw [show 0x90 + l - 0x90 = l from by omega]
  · have e2 := beNat_beBytes 2 l (by omega)
    simp only [List.cons_append, List.nil_append, List.append_assoc]
    rw [decodeVal.eq_3]
    norm_num
    rw [readN_len 2 (beBytes 2 l) (body ++ bs) (beBytes_length 2 l)]
    simp [e2]
  · have e2 := beNat_beBytes 4 l (by omega)
    simp only [List.cons_append, List.nil_append, List.append_assoc]
    rw [decodeVal.eq_3]
    norm_num
    rw [readN_len 4 (beBytes 4 l) (body ++ bs) (beBytes_length 4 l)]
    simp [e2]

theorem decode_mapHeader (fuel l : Nat) (body bs : List Nat) (h : l < 4294967296) :
    decodeVal (fuel + 1) ((mapHeader l ++ body) ++ bs) =
      (decodeMapSeq fuel l (body ++ bs)).map fun p => (.map p.1, p.2) := by
  rw [mapHeader]
  split_ifs with h1 h2
  · simp only [List.cons_append, List.nil_append, List.append_assoc]
    rw [decodeVal.eq_3]
    rw [if_neg (by omega), if_pos (by omega)]
    rw [show 0x80 + l - 0x80 = l from by omega]
  · have e2 := beNat_beBytes 2 l (by omega)
    simp only [List.cons_append, List.nil_append, List.append_assoc]
    rw [decodeVal.eq_3]
    norm_num
    rw [readN_len 2 (beBytes 2 l) (body ++ bs) (beBytes_length 2 l)]
    simp [e2]
  · have e2 := beNat_beBytes 4 l (by omega)
    simp only [List.cons_append, List.nil_append, List.append_assoc]
    rw [decodeVal.eq_3]
    norm_num
    rw [readN_len 4 (beBytes 4 l) (body ++ bs) (beBytes_length 4 l)]
    simp [e2]

theorem mpSize_pos (v : MpVal) : 1 ≤ mpSize v := by
  cases v <;> simp [mpSize]

theorem mpSizeList_le (v : MpVal) (xs : List MpVal) (h : v ∈ xs) :
    mpSize v ≤ mpSizeList xs := by
  induction xs with
  | nil => cases h
  | cons w tl ih =>
    rw [mpSizeList]
    rcases List.mem_cons.mp h with rfl | h2
    · omega
    · have := ih h2
      omega

theorem mpSizeEntries_le (k : List Nat) (v : MpVal) (kvs : List (List Nat × MpVal))
    (h : (k, v) ∈ kvs) : 1 + mpSize v ≤ mpSizeEntries kvs := by
  induction kvs with
  | nil => cases h
  | cons e tl ih =>
    obtain ⟨ek, ev⟩ := e
    rw [mpSizeEntries]
    rcases List.mem_cons.mp h with he | h2
    · obtain ⟨e1, e2⟩ := Prod.mk.inj he
      subst e1
      subst e2
      omega
    · have := ih h2
      omega

theorem mpWfList_mem (v : MpVal) (xs : List MpVal) (hwf : mpWfList xs = true)
    (h : v ∈ xs) : mpWf v = true := by
  induction xs with
  | nil => cases h
  | cons w tl ih =>
    rw [mpWfList, Bool.and_eq_true] at hwf
    rcases List.mem_cons.mp h with rfl | h2
    · exact hwf.1
    · exact ih hwf.2 h2

theorem mpWfEntries_mem (k : List Nat) (v : MpVal) (kvs : List (List Nat × MpVal))
    (hwf : mpWfEntries kvs = true) (h : (k, v) ∈ kvs) :
    mpWf (.str k) = true ∧ mpWf v = true := by
  induction kvs with
  | nil => cases h
  | cons e tl ih =>
    obtain ⟨ek, ev⟩ := e
    rw [mpWfEntries] at hwf
    simp only [Bool.and_eq_true] at hwf
    rcases List.mem_cons.mp h with he | h2
    · obtain ⟨e1, e2⟩ := Prod.mk.inj he
      subst e1
      subst e2
      refine ⟨?_, hwf.1.2⟩
      rw [mpWf, Bool.and_eq_true]
      exact ⟨hwf.1.1.1, hwf.1.1.2⟩
    · exact ih hwf.2 h2

theorem decodeArrSeq_encodeList (fuel : Nat) (xs : List MpVal) (rest : List Nat)
    (ih : ∀ v ∈ xs, ∀ r, decodeVal fuel (encodeVal v ++ r) = some (v, r)) :
    decodeArrSeq fuel xs.length (encodeList xs ++ rest) = some (xs, rest) := by
  induction xs with
  | nil =>
    rw [encodeList, List.nil_append, List.length_nil]
    rw [decodeArrSeq]
  | cons v tl ihl =>
    rw [encodeList, List.append_assoc, List.length_cons]
    rw [decodeArrSeq]
    rw [ih v (by simp) (encodeList tl ++ rest)]
    rw [Option.some_bind]
    rw [ihl (fun w hw r => ih w (by simp [hw]) r)]
    rfl

theorem decodeMapSeq_encodeEntries (fuel : Nat) (kvs : List (List Nat × MpVal))
    (rest : List Nat)
    (ihk : ∀ p ∈ kvs, ∀ r,
      decodeVal fuel (encodeVal (.str p.1) ++ r) = some (.str p.1, r))
    (ihv : ∀ p ∈ kvs, ∀ r, decodeVal fuel (encodeVal p.2 ++ r) = some (p.2, r)) :
    decodeMapSeq fuel kvs.length (encodeEntries kvs ++ rest) = some (kvs, rest) := by
  induction kvs with
  | nil =>
    rw [encodeEntries, List.nil_append, List.length_nil]
    rw [decodeMapSeq]
  | cons e tl ihl =>
    obtain ⟨k, v⟩ := e
    rw [encodeEntries, List.append_assoc, List.append_assoc, List.length_cons]
    rw [decodeMapSeq]
    have hk := ihk (k, v) (by simp) (encodeVal v ++ (encodeEntries tl ++ rest))
    rw [encodeVal] at hk
    dsimp only at hk
    rw [hk, Option.some_bind]
    dsimp only [asStrVal]
    rw [Option.some_bind]
    have hv := ihv (k, v) (by simp) (encodeEntries tl ++ rest)
    dsimp only at hv
    rw [hv, Option.some_bind]
    rw [ihl (fun p hp r => ihk p (by simp [hp]) r) (fun p hp r => ihv p (by simp [hp]) r)]
    rfl

/-- Main decoder correctness: with enough fuel, decoding an encoded
well-formed value returns the value and the remaining input. -/
theorem decodeVal_encodeVal (fuel : Nat) :
    ∀ (v : MpVal) (rest : List Nat), mpWf v = true → mpSize v ≤ fuel →
      decodeVal fuel (encodeVal v ++ rest) = some (v, rest) := by
  induction fuel with
  | zero =>
    intro v rest _ hs
    have := mpSize_pos v
    omega
  | succ fuel ih =>
    intro v rest hwf hsize
    cases v with
    | nil =>
      rw [encodeVal, List.singleton_append, decodeVal.eq_3]
      norm_num
    | undefv =>
      rw [encodeVal, List.singleton_append, decodeVal.eq_3]
      norm_num
    | bool b =>
      cases b
      · rw [encodeVal, List.singleton_append, decodeVal.eq_3]
        norm_num
      · rw [encodeVal, List.singleton_append, decodeVal.eq_3]
        norm_num
    | uint n =>
      rw [encodeVal]
      exact decode_uintBytes fuel n rest (by simpa [mpWf] using hwf)
    | str s =>
      rw [encodeVal]
      rw [mpWf, Bool.and_eq_true] at hwf
      exact decode_strHeader fuel s rest (by simpa using hwf.2)
    | bin b =>
      rw [encodeVal]
      rw [mpWf, Bool.and_eq_true] at hwf
      exact decode_binHeader fuel b rest (by simpa using hwf.2)
    | arr xs =>
      rw [mpWf, Bool.and_eq_true] at hwf
      rw [encodeVal]
      rw [decode_arrHeader fuel xs.length (encodeList xs) rest (by simpa using hwf.1)]
      rw [mpSize] at hsize
      rw [decodeArrSeq_encodeList fuel xs rest]
      · rfl
      · intro v hv r
        exact ih v r (mpWfList_mem v xs hwf.2 hv)
          (by have := mpSizeList_le v xs hv; omega)
    | map kvs =>
      rw [mpWf, Bool.and_eq_true] at hwf
      rw [encodeVal]
      rw [decode_mapHeader fuel kvs.length (encodeEntries kvs) rest (by simpa using hwf.1)]
      rw [mpSize] at hsize
      rw [decodeMapSeq_encodeEntries fuel kvs rest]
      · rfl
      · intro p hp r
        have hw := mpWfEntries_mem p.1 p.2 kvs hwf.2 (by simpa using hp)
        refine ih (.str p.1) r hw.1 ?_
        have := mpSizeEntries_le p.1 p.2 kvs (by simpa using hp)
        have : mpSize (MpVal.str p.1) = 1 := by rw [mpSize]
        omega
      · intro p hp r
        have hw := mpWfEntries_mem p.1 p.2 kvs hwf.2 (by simpa using hp)
        refine ih p.2 r hw.2 ?_
        have := mpSizeEntries_le p.1 p.2 kvs (by simpa using hp)
        omega

theorem strHeader_len_pos (l : Nat) : 1 ≤ (strHeader l).length := by
  rw [strHeader]
  split_ifs <;> simp

theorem arrHeader_len_pos (l : Nat) : 1 ≤ (arrHeader l).length := by
  rw [arrHeader]
  split_ifs <;> simp

theorem mapHeader_len_pos (l : Nat) : 1 ≤ (mapHeader l).length := by
  rw [mapHeader]
  split_ifs <;> simp

theorem encLen_list (xs : List MpVal) (ih : ∀ v ∈ xs, mpSize v ≤ (encodeVal v).length) :
    mpSizeList xs ≤ (encodeList xs).length := by
  induction xs with
  | nil => simp [mpSizeList, encodeList]
  | cons v tl ihl =>
    rw [mpSizeList, encodeList, List.length_append]
    have h1 := ih v (by simp)
    have h2 := ihl (fun w hw => ih w (by simp [hw]))
    omega

theorem encLen_entries (kvs : List (List Nat × MpVal))
    (ih : ∀ p ∈ kvs, mpSize p.2 ≤ (encodeVal p.2).length) :
    mpSizeEntries kvs ≤ (encodeEntries kvs).length := by
  induction kvs with
  | nil => simp [mpSizeEntries, encodeEntries]
  | cons e tl ihl =>
    obtain ⟨k, v⟩ := e
    rw [mpSizeEntries, encodeEntries]
    simp only [List.length_append]
    have h1 := ih (k, v) (by simp)
    have h2 := ihl (fun p hp => ih p (by simp [hp]))
    have h3 := strHeader_len_pos k.length
    dsimp only at h1
    omega

/-- Every node of a value occupies at least one byte of its encoding. -/
theorem mpSize_le_encLen : ∀ (bound : Nat) (v : MpVal), mpSize v ≤ bound →
    mpSize v ≤ (encodeVal v).length := by
  intro bound
  induction bound with
  | zero =>
    intro v h
    have := mpSize_pos v
    omega
  | succ bound ih =>
    intro v h
    cases v with
    | nil => simp [mpSize, encodeVal]
    | undefv => simp [mpSize, encodeVal]
    | bool b => cases b <;> simp [mpSize, encodeVal]
    | uint n =>
      rw [mpSize, encodeVal, uintBytes]
      split_ifs <;> simp
    | str s =>
      rw [mpSize, encodeVal, List.length_append]
      have := strHeader_len_pos s.length
      omega
    | bin b =>
      rw [mpSize, encodeVal, List.length_append, binHeader]
      split_ifs <;> simp [beBytes_length] <;> omega
    | arr xs =>
      rw [mpSize] at h ⊢
      rw [encodeVal, List.length_append]
      have hl := encLen_list xs
        (fun w hw => ih w (by have := mpSizeList_le w xs hw; omega))
      have ha := arrHeader_len_pos xs.length
      omega
    | map kvs =>
      rw [mpSize] at h ⊢
      rw [encodeVal, List.length_append]
      have hl := encLen_entries kvs
        (fun p hp => ih p.2
          (by have := mpSizeEntries_le p.1 p.2 kvs (by simpa using hp); omega))
      have ha := mapHeader_len_pos kvs.length
      omega

/-- Decoding an encoded well-formed value gives the value back. -/
theorem unpack_encodeVal (v : MpVal) (h : mpWf v = true) :
    unpack (encodeVal v) = some v := by
  have hsz : mpSize v ≤ (encodeVal v).length := mpSize_le_encLen (mpSize v) v le_rfl
  have hd := decodeVal_encodeVal (encodeVal v).length v [] h hsz
  rw [List.append_nil] at hd
  rw [unpack, hd]
  rfl

/-! ## Frame shapes (`src/header.ts`)

The four server→client shapes (`ProxyRequestHeaderFrame`,
`ProxyRequestBodyFrame`, `ProxyRequestFrame`, `ProxyRequestAbortFrame`)
and the two client→server shapes (`ProxyResponseHeaderFrame`,
`ProxyResponseBodyFrame`).  Wire strings are UTF-8 byte lists; an absent
optional `data` / `body` field is a key whose value is `undefined`
(msgpackr's `0xc1`), exactly as the object literals in `app.ts` /
`proxy.ts` build them. -/

inductive RequestFrame where
  | header (requestId method path : List Nat)
      (headers : List (List Nat × List Nat)) (eof : Bool)
  | body (requestId : List Nat) (data : Option (List Nat)) (eof : Bool)
  | request (requestId method path : List Nat)
      (headers : List (List Nat × List Nat)) (body : Option (List Nat))
  | abort (requestId : List Nat)
deriving DecidableEq

inductive ResponseFrame where
  | header (requestId : List Nat) (status : Nat) (statusText : List Nat)
      (headers : List (List Nat × List Nat)) (eof : Bool)
  | body (requestId : List Nat) (data : Option (List Nat)) (eof : Bool)
deriving DecidableEq

/-- Key bytes of a frame field name. -/
def key (s : String) : List Nat := utf8Bytes s

/-- One `[name, value]` header pair as a MessagePack value. -/
def headerEntryVal (p : List Nat × List Nat) : MpVal := .arr [.str p.1, .str p.2]

/-- A `[string, string][]` header list as a MessagePack value. -/
def headersVal (hs : List (List Nat × List Nat)) : MpVal :=
  .arr (hs.map headerEntryVal)

/-- An optional byte payload (`data?: Uint8Array`). -/
def optBin : Option (List Nat) → MpVal
  | none => .undefv
  | some b => .bin b

/-- The MessagePack value of a request frame, with the field order of
the object literals in `app.ts`. -/
def RequestFrame.toVal : RequestFrame → MpVal
  | .header rid m p hs eof =>
    .map [(key "requestId", .str rid), (key "type", .str (utf8Bytes "header")),
      (key "method", .str m), (key "path", .str p),
      (key "headers", headersVal hs), (key "eof", .bool eof)]
  | .body rid d eof =>
    .map [(key "requestId", .str rid), (key "type", .str (utf8Bytes "body")),
      (key "data", optBin d), (key "eof", .bool eof)]
  | .request rid m p hs b =>
    .map [(key "requestId", .str rid), (key "type", .str (utf8Bytes "request")),
      (key "method", .str m), (key "path", .str p),
      (key "headers", headersVal hs), (key "body", optBin b)]
  | .abort rid =>
    .map [(key "requestId", .str rid), (key "type", .str (utf8Bytes "abort"))]

/-- The MessagePack value of a response frame, with the field order of
the object literals in `proxy.ts`. -/
def ResponseFrame.toVal : ResponseFrame → MpVal
  | .header rid st stx hs eof =>
    .map [(key "requestId", .str rid), (key "type", .str (utf8Bytes "header")),
      (key "status", .uint st), (key "statusText", .str stx),
      (key "headers", headersVal hs), (key "eof", .bool eof)]
  | .body rid d eof =>
    .map [(key "requestId", .str rid), (key "type", .str (utf8Bytes "body")),
      (key "data", optBin d), (key "eof", .bool eof)]

/-- Property lookup on a decoded map (JS `frame.field`). -/
def lookupKey (kvs : List (List Nat × MpVal)) (k : List Nat) : Option MpVal :=
  (kvs.find? fun p => p.1 == k).map Prod.snd

def readBool : MpVal → Option Bool
  | .bool b => some b
  | _ => none

def readUint : MpVal → Option Nat
  | .uint n => some n
  | _ => none

def readOptBin : MpVal → Option (Option (List Nat))
  | .bin b => some (some b)
  | .undefv => some none
  | _ => none

def readHeaderEntry : MpVal → Option (List Nat × List Nat)
  | .arr [.str a, .str b] => some (a, b)
  | _ => none

def readHeaderList : List MpVal → Option (List (List Nat × List Nat))
  | [] => some []
  | v :: tl =>
    (readHeaderEntry v).bind fun p =>
      (readHeaderList tl).map fun ps => p :: ps

def readHeaders : MpVal → Option (List (List Nat × List Nat))
  | .arr xs => readHeaderList xs
  | _ => none

/-- Interpret a decoded value as a request frame (the client direction
of `processRequestMessage`): dispatch on the string `type`, then read
the fields the `header.ts` interface declares for that shape. -/
def readRequestFrame (v : MpVal) : Option RequestFrame :=
  match v with
  | .map kvs =>
    (lookupKey kvs (key "type")).bind fun tv =>
    (asStrVal tv).bind fun t =>
    (lookupKey kvs (key "requestId")).bind fun rv =>
    (asStrVal rv).bind fun rid =>
    if t = utf8Bytes "header" then
      (lookupKey kvs (key "method")).bind fun mv =>
      (asStrVal mv).bind fun m =>
      (lookupKey kvs (key "path")).bind fun pv =>
      (asStrVal pv).bind fun p =>
      (lookupKey kvs (key "eof")).bind fun ev =>
      (readBool ev).bind fun eof =>
      (lookupKey kvs (key "headers")).bind fun hv =>
      (readHeaders hv).map fun hs => RequestFrame.header rid m p hs eof
    else if t = utf8Bytes "body" then
      (lookupKey kvs (key "data")).bind fun dv =>
      (readOptBin dv).bind fun d =>
      (lookupKey kvs (key "eof")).bind fun ev =>
      (readBool ev).map fun eof => RequestFrame.body rid d eof
    else if t = utf8Bytes "request" then
      (lookupKey kvs (key "method")).bind fun mv =>
      (asStrVal mv).bind fun m =>
      (lookupKey kvs (key "path")).bind fun pv =>
      (asStrVal pv).bind fun p =>
      (lookupKey kvs (key "body")).bind fun bv =>
      (readOptBin bv).bind fun b =>
      (lookupKey kvs (key "headers")).bind fun hv =>
      (readHeaders hv).map fun hs => RequestFrame.request rid m p hs b
    else if t = utf8Bytes "abort" then
      some (RequestFrame.abort rid)
    else none
  | _ => none

/-- Interpret a decoded value as a response frame (the server direction
of `processResponseMessage`). -/
def readResponseFrame (v : MpVal) : Option ResponseFrame :=
  match v with
  | .map kvs =>
    (lookupKey kvs (key "type")).bind fun tv =>
    (asStrVal tv).bind fun t =>
    (lookupKey kvs (key "requestId")).bind fun rv =>
    (asStrVal rv).bind fun rid =>
    if t = utf8Bytes "header" then
      (lookupKey kvs (key "status")).bind fun sv =>
      (readUint sv).bind fun st =>
      (lookupKey kvs (key "statusText")).bind fun xv =>
      (asStrVal xv).bind fun stx =>
      (lookupKey kvs (key "eof")).bind fun ev =>
      (readBool ev).bind fun eof =>
      (lookupKey kvs (key "headers")).bind fun hv =>
      (readHeaders hv).map fun hs => ResponseFrame.header rid st stx hs eof
    else if t = utf8Bytes "body" then
      (lookupKey kvs (key "data")).bind fun dv =>
      (readOptBin dv).bind fun d =>
      (lookupKey kvs (key "eof")).bind fun ev =>
      (readBool ev).map fun eof => ResponseFrame.body rid d eof
    else none
  | _ => none

theorem readHeaderList_map (hs : List (List Nat × List Nat)) :
    readHeaderList (hs.map headerEntryVal) = some hs := by
  induction hs with
  | nil => rfl
  | cons p tl ih =>
    obtain ⟨a, b⟩ := p
    rw [List.map_cons, readHeaderList]
    rw [show readHeaderEntry (headerEntryVal (a, b)) = some (a, b) from rfl,
      Option.some_bind, ih]
    rfl

theorem readRequestFrame_toVal (f : RequestFrame) :
    readRequestFrame f.toVal = some f := by
  cases f with
  | header rid m p hs eof =>
    show (readHeaderList (hs.map headerEntryVal)).map
      (fun hs2 => RequestFrame.header rid m p hs2 eof) = some (.header rid m p hs eof)
    rw [readHeaderList_map]
    rfl
  | body rid d eof =>
    cases d <;> rfl
  | request rid m p hs b =>
    cases b with
    | none =>
      show (readHeaderList (hs.map headerEntryVal)).map
        (fun hs2 => RequestFrame.request rid m p hs2 none) = some (.request rid m p hs none)
      rw [readHeaderList_map]
      rfl
    | some bb =>
      show (readHeaderList (hs.map headerEntryVal)).map
        (fun hs2 => RequestFrame.request rid m p hs2 (some bb)) =
          some (.request rid m p hs (some bb))
      rw [readHeaderList_map]
      rfl
  | abort rid => rfl

theorem readResponseFrame_toVal (f : ResponseFrame) :
    readResponseFrame f.toVal = some f := by
  cases f with
  | header rid st stx hs eof =>
    show (readHeaderList (hs.map headerEntryVal)).map
      (fun hs2 => ResponseFrame.header rid st stx hs2 eof) =
        some (.header rid st stx hs eof)
    rw [readHeaderList_map]
    rfl
  | body rid d eof =>
    cases d <;> rfl

/-- A wire string is well formed when its elements are bytes and its
length fits the largest MessagePack string length field. -/
def bytesWf (s : List Nat) : Bool :=
  s.all (· < 256) && s.length < 4294967296

def headersWfB (hs : List (List Nat × List Nat)) : Bool :=
  hs.length < 4294967296 && hs.all fun p => bytesWf p.1 && bytesWf p.2

def optBinWf : Option (List Nat) → Bool
  | none => true
  | some b => bytesWf b

/-- Well-formed request frame: realistic field contents. -/
def RequestFrame.Wf : RequestFrame → Bool
  | .header rid m p hs _ => bytesWf rid && bytesWf m && bytesWf p && headersWfB hs
  | .body rid d _ => bytesWf rid && optBinWf d
  | .request rid m p hs b =>
    bytesWf rid && bytesWf m && bytesWf p && headersWfB hs && optBinWf b
  | .abort rid => bytesWf rid

/-- Well-formed response frame. -/
def ResponseFrame.Wf : ResponseFrame → Bool
  | .header rid st stx hs _ =>
    bytesWf rid && st < 2 ^ 64 && bytesWf stx && headersWfB hs
  | .body rid d _ => bytesWf rid && optBinWf d

theorem mpWf_str (s : List Nat) (h : bytesWf s = true) : mpWf (.str s) = true := by
  rw [mpWf]
  rw [bytesWf] at h
  exact h

theorem mpWf_bool (b : Bool) : mpWf (.bool b) = true := by
  rw [mpWf]

theorem mpWf_uint (n : Nat) (h : n < 2 ^ 64) : mpWf (.uint n) = true := by
  rw [mpWf]
  simpa using h

theorem mpWf_optBin (d : Option (List Nat)) (h : optBinWf d = true) :
    mpWf (optBin d) = true := by
  cases d with
  | none => rw [optBin, mpWf]
  | some b =>
    rw [optBin, mpWf]
    rw [optBinWf, bytesWf] at h
    exact h

theorem mpWf_headersVal (hs : List (List Nat × List Nat))
    (h : headersWfB hs = true) : mpWf (headersVal hs) = true := by
  rw [headersWfB, Bool.and_eq_true] at h
  rw [headersVal, mpWf, Bool.and_eq_true]
  constructor
  · simpa using h.1
  · have h2 : ∀ p ∈ hs, (bytesWf p.1 && bytesWf p.2) = true :=
      (List.all_eq_true).mp h.2
    clear h
    induction hs with
    | nil => rw [List.map_nil, mpWfList]
    | cons p tl ih =>
      rw [List.map_cons, mpWfList, Bool.and_eq_true]
      refine ⟨?_, ih fun q hq => h2 q (by simp [hq])⟩
      obtain ⟨a, b⟩ := p
      have hp := h2 (a, b) (by simp)
      rw [Bool.and_eq_true] at hp
      rw [headerEntryVal, mpWf, Bool.and_eq_true]
      refine ⟨by simp, ?_⟩
      rw [mpWfList, mpWfList, mpWfList]
      simp only [Bool.and_eq_true, and_true]
      exact ⟨mpWf_str a hp.1, mpWf_str b hp.2⟩

theorem mpWfEntries_of (kvs : List (List Nat × MpVal))
    (h : ∀ k v, (k, v) ∈ kvs →
      ((k.all (· < 256) && k.length < 4294967296) = true) ∧ mpWf v = true) :
    mpWfEntries kvs = true := by
  induction kvs with
  | nil => rw [mpWfEntries]
  | cons e tl ih =>
    obtain ⟨k, v⟩ := e
    rw [mpWfEntries]
    have hp := h k v (by simp)
    simp only [Bool.and_eq_true] at hp ⊢
    exact ⟨⟨⟨hp.1.1, hp.1.2⟩, hp.2⟩, ih fun k2 v2 hkv => h k2 v2 (by simp [hkv])⟩

theorem requestFrame_toVal_wf (f : RequestFrame) (h : f.Wf = true) :
    mpWf f.toVal = true := by
  cases f with
  | header rid m p hs eof =>
    rw [RequestFrame.Wf] at h
    simp only [Bool.and_eq_true] at h
    rw [RequestFrame.toVal, mpWf, Bool.and_eq_true]
    refine ⟨by simp, mpWfEntries_of _ ?_⟩
    intro k2 v2 hkv
    simp only [List.mem_cons, List.not_mem_nil, or_false, Prod.mk.injEq] at hkv
    rcases hkv with ⟨rfl, rfl⟩ | ⟨rfl, rfl⟩ | ⟨rfl, rfl⟩ | ⟨rfl, rfl⟩ | ⟨rfl, rfl⟩ | ⟨rfl, rfl⟩
    · exact ⟨by decide, mpWf_str rid h.1.1.1⟩
    · exact ⟨by decide, mpWf_str _ (by decide)⟩
    · exact ⟨by decide, mpWf_str m h.1.1.2⟩
    · exact ⟨by decide, mpWf_str p h.1.2⟩
    · exact ⟨by decide, mpWf_headersVal hs h.2⟩
    · exact ⟨by decide, mpWf_bool eof⟩
  | body rid d eof =>
    rw [RequestFrame.Wf] at h
    simp only [Bool.and_eq_true] at h
    rw [RequestFrame.toVal, mpWf, Bool.and_eq_true]
    refine ⟨by simp, mpWfEntries_of _ ?_⟩
    intro k2 v2 hkv
    simp only [List.mem_cons, List.not_mem_nil, or_false, Prod.mk.injEq] at hkv
    rcases hkv with ⟨rfl, rfl⟩ | ⟨rfl, rfl⟩ | ⟨rfl, rfl⟩ | ⟨rfl, rfl⟩
    · exact ⟨by decide, mpWf_str rid h.1⟩
    · exact ⟨by decide, mpWf_str _ (by decide)⟩
    · exact ⟨by decide, mpWf_optBin d h.2⟩
    · exact ⟨by decide, mpWf_bool eof⟩
  | request rid m p hs b =>
    rw [RequestFrame.Wf] at h
    simp only [Bool.and_eq_true] at h
    rw [RequestFrame.toVal, mpWf, Bool.and_eq_true]
    refine ⟨by simp, mpWfEntries_of _ ?_⟩
    intro k2 v2 hkv
    simp only [List.mem_cons, List.not_mem_nil, or_false, Prod.mk.injEq] at hkv
    rcases hkv with ⟨rfl, rfl⟩ | ⟨rfl, rfl⟩ | ⟨rfl, rfl⟩ | ⟨rfl, rfl⟩ | ⟨rfl, rfl⟩ | ⟨rfl, rfl⟩
    · exact ⟨by decide, mpWf_str rid h.1.1.1.1⟩
    · exact ⟨by decide, mpWf_str _ (by decide)⟩
    · exact ⟨by decide, mpWf_str m h.1.1.1.2⟩
    · exact ⟨by decide, mpWf_str p h.1.1.2⟩
    · exact ⟨by decide, mpWf_headersVal hs h.1.2⟩
    · exact ⟨by decide, mpWf_optBin b h.2⟩
  | abort rid =>
    rw [RequestFrame.Wf] at h
    rw [RequestFrame.toVal, mpWf, Bool.and_eq_true]
    refine ⟨by simp, mpWfEntries_of _ ?_⟩
    intro k2 v2 hkv
    simp only [List.mem_cons, List.not_mem_nil, or_false, Prod.mk.injEq] at hkv
    rcases hkv with ⟨rfl, rfl⟩ | ⟨rfl, rfl⟩
    · exact ⟨by decide, mpWf_str rid h⟩
    · exact ⟨by decide, mpWf_str _ (by decide)⟩

theorem responseFrame_toVal_wf (f : ResponseFrame) (h : f.Wf = true) :
    mpWf f.toVal = true := by
  cases f with
  | header rid st stx hs eof =>
    rw [ResponseFrame.Wf] at h
    simp only [Bool.and_eq_true, decide_eq_true_eq] at h
    rw [ResponseFrame.toVal, mpWf, Bool.and_eq_true]
    refine ⟨by simp, mpWfEntries_of _ ?_⟩
    intro k2 v2 hkv
    simp only [List.mem_cons, List.not_mem_nil, or_false, Prod.mk.injEq] at hkv
    rcases hkv with ⟨rfl, rfl⟩ | ⟨rfl, rfl⟩ | ⟨rfl, rfl⟩ | ⟨rfl, rfl⟩ | ⟨rfl, rfl⟩ | ⟨rfl, rfl⟩
    · exact ⟨by decide, mpWf_str rid h.1.1.1⟩
    · exact ⟨by decide, mpWf_str _ (by decide)⟩
    · exact ⟨by decide, mpWf_uint st h.1.1.2⟩
    · exact ⟨by decide, mpWf_str stx h.1.2⟩
    · exact ⟨by decide, mpWf_headersVal hs h.2⟩
    · exact ⟨by decide, mpWf_bool eof⟩
  | body rid d eof =>
    rw [ResponseFrame.Wf] at h
    simp only [Bool.and_eq_true] at h
    rw [ResponseFrame.toVal, mpWf, Bool.and_eq_true]
    refine ⟨by simp, mpWfEntries_of _ ?_⟩
    intro k2 v2 hkv
    simp only [List.mem_cons, List.not_mem_nil, or_false, Prod.mk.injEq] at hkv
    rcases hkv with ⟨rfl, rfl⟩ | ⟨rfl, rfl⟩ | ⟨rfl, rfl⟩ | ⟨rfl, rfl⟩
    · exact ⟨by decide, mpWf_str rid h.1⟩
    · exact ⟨by decide, mpWf_str _ (by decide)⟩
    · exact ⟨by decide, mpWf_optBin d h.2⟩
    · exact ⟨by decide, mpWf_bool eof⟩

/-- `pack` of a request frame (`app.ts` sends `pack(header)` etc.). -/
def packRequestFrame (f : RequestFrame) : List Nat := encodeVal f.toVal

/-- The client end: `unpack(event.data)` then interpretation as a
request frame. -/
def unpackRequestFrame (bs : List Nat) : Option RequestFrame :=
  (unpack bs).bind readRequestFrame

/-- `pack` of a response frame (`proxy.ts` `respond`). -/
def packResponseFrame (f : ResponseFrame) : List Nat := encodeVal f.toVal

/-- The server end: `unpack(event.data)` then interpretation as a
response frame. -/
def unpackResponseFrame (bs : List Nat) : Option ResponseFrame :=
  (unpack bs).bind readResponseFrame

/-- C7: for every frame f of a defined shape (request header, request
body, buffered request, abort, response header, response body as
declared in src/header.ts), decoding the encoding of f yields f:
`unpack(pack(f)) = f`.  The four request shapes are read at the client
end, the two response shapes at the server end. -/
theorem c7_unpack_pack_roundtrip (f : RequestFrame) (g : ResponseFrame)
    (hf : f.Wf = true) (hg : g.Wf = true) :
    unpackRequestFrame (packRequestFrame f) = some f ∧
      unpackResponseFrame (packResponseFrame g) = some g := by
  constructor
  · rw [unpackRequestFrame, packRequestFrame,
      unpack_encodeVal _ (requestFrame_toVal_wf f hf), Option.some_bind]
    exact readRequestFrame_toVal f
  · rw [unpackResponseFrame, packResponseFrame,
      unpack_encodeVal _ (responseFrame_toVal_wf g hg), Option.some_bind]
    exact readResponseFrame_toVal g

/-- Witness for C7 at concrete frames: a `GET /` request header with one
header pair, and a `200` response header. -/
theorem c7_unpack_pack_roundtrip_witness :
    (RequestFrame.header [114, 49] [71, 69, 84] [47] [([104], [118])] false).Wf = true ∧
    (ResponseFrame.header [114, 49] 200 [79, 75] [([99, 116], [55])] true).Wf = true ∧
    unpackRequestFrame (packRequestFrame
      (RequestFrame.header [114, 49] [71, 69, 84] [47] [([104], [118])] false)) =
      some (RequestFrame.header [114, 49] [71, 69, 84] [47] [([104], [118])] false) ∧
    unpackResponseFrame (packResponseFrame
      (ResponseFrame.header [114, 49] 200 [79, 75] [([99, 116], [55])] true)) =
      some (ResponseFrame.header [114, 49] 200 [79, 75] [([99, 116], [55])] true) := by
  refine ⟨by decide, by decide, ?_, ?_⟩
  · exact (c7_unpack_pack_roundtrip
      (RequestFrame.header [114, 49] [71, 69, 84] [47] [([104], [118])] false)
      (ResponseFrame.header [114, 49] 200 [79, 75] [([99, 116], [55])] true)
      (by decide) (by decide)).1
  · exact (c7_unpack_pack_roundtrip
      (RequestFrame.header [114, 49] [71, 69, 84] [47] [([104], [118])] false)
      (ResponseFrame.header [114, 49] 200 [79, 75] [([99, 116], [55])] true)
      (by decide) (by decide)).2

/-! ## Server state (`src/server/app.ts`)

`clients` is the registry object (association list in insertion order;
`Object.values` preserves insertion order for the opaque, non-index
`ClientId` strings the spec prescribes).  `requestTasks` and
`responseWriters` are the two string-keyed `Map`s, modelled as partial
functions.  Two ghost components support the embedding: `gen` stamps
each `ClientRecord` with the identity of the JS object the `open`
listener created (object identity matters because the dispatcher
captures the record, and a reconnect overwrites the slot with a new
object), and `usedIds` records every `RequestId` ever minted (the code
guarantees freshness through the monotone `serial` counter `idPool`).
A `responseWriters` value of `true` is an open writer, `false` one that
`close()` has been called on (the close listener closes writers without
removing them from the map). -/

structure ClientRecord where
  gen : Nat
  requests : Finset String
  responses : Finset String
deriving DecidableEq

/-- What a `RequestTask` was resolved with. -/
inductive Resolution where
  | bodyless (status : Nat) (statusText : String) (headers : List (String × String))
  | streaming (status : Nat) (statusText : String) (headers : List (String × String))
  | wsTunnel
deriving DecidableEq

/-- An `AsyncTask` is pending until its first `resolve`; later resolves
are no-ops. -/
inductive TaskStatus where
  | pending
  | resolved (r : Resolution)
deriving DecidableEq

structure TaskEntry where
  clientId : String
  gen : Nat
  status : TaskStatus
deriving DecidableEq

structure ServerState where
  clients : List (String × Option ClientRecord)
  tasks : String → Option TaskEntry
  writers : String → Option Bool
  usedIds : Finset String
  genCtr : Nat
  ctr : Nat

/-- Registry lookup (`clients[clientId]`): `none` when the key was never
written, `some none` for a tombstone. -/
def getSlot : List (String × Option ClientRecord) → String →
    Option (Option ClientRecord)
  | [], _ => none
  | p :: tl, cid => if p.1 = cid then some p.2 else getSlot tl cid

def hasKey : List (String × Option ClientRecord) → String → Bool
  | [], _ => false
  | p :: tl, cid => p.1 = cid || hasKey tl cid

/-- In-place overwrite of an existing key. -/
def replaceSlot : List (String × Option ClientRecord) → String →
    Option ClientRecord → List (String × Option ClientRecord)
  | [], _, _ => []
  | p :: tl, cid, v => (if p.1 = cid then (p.1, v) else p) :: replaceSlot tl cid v

/-- Registry write (`clients[clientId] = v`): overwrite in place when the
key exists, append otherwise. -/
def setSlot (reg : List (String × Option ClientRecord)) (cid : String)
    (v : Option ClientRecord) : List (String × Option ClientRecord) :=
  if hasKey reg cid then replaceSlot reg cid v else reg ++ [(cid, v)]

/-- The live record at a slot, if any. -/
def getRecord (st : ServerState) (cid : String) : Option ClientRecord :=
  match getSlot st.clients cid with
  | some (some r) => some r
  | _ => none

/-- Mutate the record currently occupying a slot (`clients[clientId]`
read at event time, `?.`-guarded). -/
def updateRecord : List (String × Option ClientRecord) → String →
    (ClientRecord → ClientRecord) → List (String × Option ClientRecord)
  | [], _, _ => []
  | p :: tl, cid, f =>
    (if p.1 = cid then (p.1, p.2.map f) else p) :: updateRecord tl cid f

/-- `Object.values(clients).filter(Boolean)`, keeping the keys for
specification purposes. -/
def liveClients (reg : List (String × Option ClientRecord)) :
    List (String × ClientRecord) :=
  reg.filterMap fun p => p.2.map fun r => (p.1, r)

def mapSet {α : Type} (m : String → Option α) (k : String) (v : α) :
    String → Option α :=
  fun x => if x = k then some v else m x

def mapDel {α : Type} (m : String → Option α) (k : String) :
    String → Option α :=
  fun x => if x = k then none else m x

/-- `task.resolve(r)`: the first resolution wins. -/
def resolveTask (tasks : String → Option TaskEntry) (rid : String)
    (r : Resolution) : String → Option TaskEntry :=
  fun x =>
    if x = rid then
      (tasks rid).map fun e =>
        if e.status = .pending then { e with status := .resolved r } else e
    else tasks x

/-- A well-typed response frame as the assembler destructures it. -/
inductive RespMsg where
  | header (requestId : String) (status : Nat) (statusText : String)
      (headers : List (String × String)) (eof : Bool)
  | body (requestId : String) (data : Option (List Nat)) (eof : Bool)
deriving DecidableEq

/-- `processResponseMessage` (app.ts 78–131).  A `header` frame with a
matching task resolves it; with `eof=false` it additionally creates a
`ResponseBodyWriter` and marks the id in the current record's
`responses` (note: the id is still in `requests` at this point — the
dispatcher's cleanup runs only after the awaited task settles).  A
`body` frame with a matching writer closes and removes it on `eof`. -/
def processResponseMessage (frame : RespMsg) (clientId : String)
    (st : ServerState) : ServerState :=
  match frame with
  | .header rid status statusText headers eof =>
    match st.tasks rid with
    | none => st
    | some _ =>
      if eof then
        { st with tasks := resolveTask st.tasks rid (.bodyless status statusText headers) }
      else
        { st with
          tasks := resolveTask st.tasks rid (.streaming status statusText headers),
          writers := mapSet st.writers rid true,
          clients := updateRecord st.clients clientId
            fun r => { r with responses := insert rid r.responses } }
  | .body rid _ eof =>
    match st.writers rid with
    | none => st
    | some _ =>
      if eof then
        { st with
          writers := mapDel st.writers rid,
          clients := updateRecord st.clients clientId
            fun r => { r with responses := r.responses.erase rid } }
      else st

/-- The socket `open` listener (app.ts 162–169): unconditionally bind a
fresh record, overwriting whatever occupies the slot. -/
def openListener (clientId : String) (st : ServerState) : ServerState :=
  { st with
    clients := setSlot st.clients clientId (some ⟨st.genCtr, ∅, ∅⟩),
    genCtr := st.genCtr + 1 }

/-- The socket `close` listener (app.ts 188–212): resolve the pending
requests of the record *currently* in the slot with a synthetic
`500 Internal Server Error`, close (without removing) the writers of its
active responses, and tombstone the slot. -/
def closeListener (clientId : String) (st : ServerState) : ServerState :=
  match getRecord st clientId with
  | none => st
  | some rec =>
    { st with
      tasks := fun rid =>
        if rid ∈ rec.requests then
          (st.tasks rid).map fun e =>
            if e.status = .pending then
              { e with status := .resolved (.bodyless 500 "Internal Server Error" []) }
            else e
        else st.tasks rid,
      writers := fun rid =>
        if rid ∈ rec.responses then (st.writers rid).map fun _ => false
        else st.writers rid,
      clients := setSlot st.clients clientId none }

/-- State effect of dispatching a request to a chosen client
(app.ts 334–337): create the pending task and mark the id in the chosen
record's `pendingRequests`. -/
def dispatchRequest (clientId rid : String) (st : ServerState) : ServerState :=
  match getRecord st clientId with
  | none => st
  | some rec =>
    { st with
      tasks := mapSet st.tasks rid ⟨clientId, rec.gen, .pending⟩,
      clients := updateRecord st.clients clientId
        fun r => { r with requests := insert rid r.requests },
      usedIds := insert rid st.usedIds }

/-- Dispatcher cleanup after the awaited race settles (app.ts 402–403):
drop the task and erase the id from the record the dispatcher captured —
hence the `gen` check: if the slot has been overwritten since, the
mutation hits the dead captured object, not the current record. -/
def cleanupRequest (rid : String) (st : ServerState) : ServerState :=
  match st.tasks rid with
  | none => st
  | some e =>
    { st with
      tasks := mapDel st.tasks rid,
      clients := updateRecord st.clients e.clientId fun r =>
        if r.gen = e.gen then { r with requests := r.requests.erase rid } else r }

/-- Events of the server transition system. -/
inductive Event where
  | connOpen (clientId : String)
  | connClose (clientId : String)
  | dispatch (clientId rid : String)
  | respMsg (clientId : String) (msg : RespMsg)
  | cleanup (rid : String)

def applyEvent (st : ServerState) : Event → ServerState
  | .connOpen cid => openListener cid st
  | .connClose cid => closeListener cid st
  | .dispatch cid rid => dispatchRequest cid rid st
  | .respMsg cid m => processResponseMessage m cid st
  | .cleanup rid => cleanupRequest rid st

/-- Which events can actually fire: `close` only for a live slot (the
listener's non-null assertion), `dispatch` only to a live client with a
fresh id (the `serial` counter never repeats), `cleanup` only for a
dispatched, not yet cleaned id. -/
def legalEvent (st : ServerState) : Event → Bool
  | .connOpen _ => true
  | .connClose cid => (getRecord st cid).isSome
  | .dispatch cid rid => (getRecord st cid).isSome && !(rid ∈ st.usedIds)
  | .respMsg _ _ => true
  | .cleanup rid => (st.tasks rid).isSome

def initState : ServerState :=
  ⟨[], fun _ => none, fun _ => none, ∅, 0, 0⟩

def run : ServerState → List Event → ServerState
  | st, [] => st
  | st, e :: tr => run (applyEvent st e) tr

def legalTrace : ServerState → List Event → Bool
  | _, [] => true
  | st, e :: tr => legalEvent st e && legalTrace (applyEvent st e) tr

/-- Reachable server states. -/
def Reachable (st : ServerState) : Prop :=
  ∃ tr : List Event, legalTrace initState tr = true ∧ run initState tr = st

/-! ### Registry lemmas -/

theorem hasKey_eq_isSome (reg : List (String × Option ClientRecord)) (cid : String) :
    hasKey reg cid = (getSlot reg cid).isSome := by
  induction reg with
  | nil => rfl
  | cons p tl ih =>
    by_cases hp : p.1 = cid
    · simp [hasKey, getSlot, hp]
    · simp [hasKey, getSlot, hp, ih]

theorem getSlot_replaceSlot_self (reg : List (String × Option ClientRecord))
    (cid : String) (v : Option ClientRecord) (h : hasKey reg cid = true) :
    getSlot (replaceSlot reg cid v) cid = some v := by
  induction reg with
  | nil => simp [hasKey] at h
  | cons p tl ih =>
    by_cases hp : p.1 = cid
    · simp [replaceSlot, getSlot, hp]
    · rw [hasKey] at h
      simp only [hp, decide_eq_true_eq, false_or, Bool.or_eq_true] at h
      simp [replaceSlot, getSlot, hp, ih (by simp [h])]

theorem getSlot_replaceSlot_ne (reg : List (String × Option ClientRecord))
    (cid cid2 : String) (v : Option ClientRecord) (hne : cid2 ≠ cid) :
    getSlot (replaceSlot reg cid v) cid2 = getSlot reg cid2 := by
  induction reg with
  | nil => rfl
  | cons p tl ih =>
    by_cases hp : p.1 = cid
    · simp [replaceSlot, getSlot, hp, Ne.symm hne, ih]
    · by_cases hq : p.1 = cid2
      · simp [replaceSlot, getSlot, hp, hq, hne]
      · simp [replaceSlot, getSlot, hp, hq, ih]

theorem getSlot_setSlot_self (reg : List (String × Option ClientRecord))
    (cid : String) (v : Option ClientRecord) :
    getSlot (setSlot reg cid v) cid = some v := by
  rw [setSlot]
  split_ifs with h
  · exact getSlot_replaceSlot_self reg cid v h
  · induction reg with
    | nil => simp [getSlot]
    | cons p tl ih =>
      rw [hasKey] at h
      simp only [Bool.or_eq_true, decide_eq_true_eq, not_or] at h
      simpa [getSlot, h.1] using ih (by simp [h.2])

theorem getSlot_setSlot_ne (reg : List (String × Option ClientRecord))
    (cid cid2 : String) (v : Option ClientRecord) (hne : cid2 ≠ cid) :
    getSlot (setSlot reg cid v) cid2 = getSlot reg cid2 := by
  rw [setSlot]
  split_ifs with h
  · exact getSlot_replaceSlot_ne reg cid cid2 v hne
  · induction reg with
    | nil => simp [getSlot, Ne.symm hne]
    | cons p tl ih =>
      rw [hasKey] at h
      simp only [Bool.or_eq_true, decide_eq_true_eq, not_or] at h
      by_cases hq : p.1 = cid2
      · simp [getSlot, hq]
      · simpa [getSlot, hq] using ih (by simp [h.2])

theorem getSlot_updateRecord_self (reg : List (String × Option ClientRecord))
    (cid : String) (f : ClientRecord → ClientRecord) :
    getSlot (updateRecord reg cid f) cid = (getSlot reg cid).map (Option.map f) := by
  induction reg with
  | nil => rfl
  | cons p tl ih =>
    by_cases hp : p.1 = cid
    · simp [updateRecord, getSlot, hp]
    · simp [updateRecord, getSlot, hp, ih]

theorem getSlot_updateRecord_ne (reg : List (String × Option ClientRecord))
    (cid cid2 : String) (f : ClientRecord → ClientRecord) (hne : cid2 ≠ cid) :
    getSlot (updateRecord reg cid f) cid2 = getSlot reg cid2 := by
  induction reg with
  | nil => rfl
  | cons p tl ih =>
    by_cases hp : p.1 = cid
    · simp [updateRecord, getSlot, hp, Ne.symm hne, ih]
    · by_cases hq : p.1 = cid2
      · simp [updateRecord, getSlot, hp, hq, hne]
      · simp [updateRecord, getSlot, hp, hq, ih]

theorem keys_updateRecord (reg : List (String × Option ClientRecord))
    (cid : String) (f : ClientRecord → ClientRecord) :
    (updateRecord reg cid f).map Prod.fst = reg.map Prod.fst := by
  induction reg with
  | nil => rfl
  | cons p tl ih =>
    by_cases hp : p.1 = cid
    · simp [updateRecord, hp, ih]
    · simp [updateRecord, hp, ih]

theorem keys_replaceSlot (reg : List (String × Option ClientRecord))
    (cid : String) (v : Option ClientRecord) :
    (replaceSlot reg cid v).map Prod.fst = reg.map Prod.fst := by
  induction reg with
  | nil => rfl
  | cons p tl ih =>
    by_cases hp : p.1 = cid
    · simp [replaceSlot, hp, ih]
    · simp [replaceSlot, hp, ih]

theorem keys_setSlot_has (reg : List (String × Option ClientRecord))
    (cid : String) (v : Option ClientRecord) (h : hasKey reg cid = true) :
    (setSlot reg cid v).map Prod.fst = reg.map Prod.fst := by
  rw [setSlot, if_pos h]
  exact keys_replaceSlot reg cid v

theorem hasKey_replaceSlot (reg : List (String × Option ClientRecord))
    (cid cid2 : String) (v : Option ClientRecord) :
    hasKey (replaceSlot reg cid v) cid2 = hasKey reg cid2 := by
  induction reg with
  | nil => rfl
  | cons p tl ih =>
    by_cases hp : p.1 = cid
    · simp [replaceSlot, hasKey, hp, ih]
    · simp [replaceSlot, hasKey, hp, ih]

theorem replaceSlot_not_has (reg : List (String × Option ClientRecord))
    (cid : String) (v : Option ClientRecord) (h : hasKey reg cid = false) :
    replaceSlot reg cid v = reg := by
  induction reg with
  | nil => rfl
  | cons p tl ih =>
    rw [hasKey] at h
    simp only [Bool.or_eq_false_iff, decide_eq_false_iff_not] at h
    simp [replaceSlot, h.1, ih h.2]

theorem replaceSlot_append (l1 l2 : List (String × Option ClientRecord))
    (cid : String) (v : Option ClientRecord) :
    replaceSlot (l1 ++ l2) cid v = replaceSlot l1 cid v ++ replaceSlot l2 cid v := by
  induction l1 with
  | nil => rfl
  | cons p tl ih => simp [replaceSlot, ih]

theorem hasKey_append (l1 l2 : List (String × Option ClientRecord)) (cid : String) :
    hasKey (l1 ++ l2) cid = (hasKey l1 cid || hasKey l2 cid) := by
  induction l1 with
  | nil => rfl
  | cons p tl ih => simp [hasKey, ih, Bool.or_assoc]

theorem replaceSlot_replaceSlot (reg : List (String × Option ClientRecord))
    (cid : String) (v1 v2 : Option ClientRecord) :
    replaceSlot (replaceSlot reg cid v1) cid v2 = replaceSlot reg cid v2 := by
  induction reg with
  | nil => rfl
  | cons p tl ih =>
    by_cases hp : p.1 = cid
    · simp [replaceSlot, hp, ih]
    · simp [replaceSlot, hp, ih]

/-- Writing a slot twice keeps only the second write — a close followed
by a reconnect leaves the same registry as a direct overwrite. -/
theorem setSlot_setSlot (reg : List (String × Option ClientRecord))
    (cid : String) (v1 v2 : Option ClientRecord) :
    setSlot (setSlot reg cid v1) cid v2 = setSlot reg cid v2 := by
  by_cases h : hasKey reg cid = true
  · have e1 : setSlot reg cid v1 = replaceSlot reg cid v1 := by rw [setSlot, if_pos h]
    have e2 : setSlot reg cid v2 = replaceSlot reg cid v2 := by rw [setSlot, if_pos h]
    rw [e1, e2, setSlot, if_pos (by rw [hasKey_replaceSlot]; exact h)]
    exact replaceSlot_replaceSlot reg cid v1 v2
  · have hb : hasKey reg cid = false := by simpa using h
    have hk : hasKey (reg ++ [(cid, v1)]) cid = true := by
      rw [hasKey_append]
      simp [hasKey]
    have e1 : setSlot reg cid v1 = reg ++ [(cid, v1)] := by
      rw [setSlot, if_neg (by simp [hb])]
    have e2 : setSlot reg cid v2 = reg ++ [(cid, v2)] := by
      rw [setSlot, if_neg (by simp [hb])]
    rw [e1, setSlot, if_pos hk, replaceSlot_append,
      replaceSlot_not_has reg cid v2 hb, e2]
    simp [replaceSlot]

/-- With unique keys, every occurrence of a key carries the value
`getSlot` reports. -/
theorem all_eq_of_nodup_getSlot (reg : List (String × Option ClientRecord))
    (cid : String) (w : Option ClientRecord)
    (hn : (reg.map Prod.fst).Nodup) (h : getSlot reg cid = some w) :
    ∀ p ∈ reg, p.1 = cid → p.2 = w := by
  induction reg with
  | nil => intro p hp; cases hp
  | cons q tl ih =>
    rw [List.map_cons, List.nodup_cons] at hn
    intro p hp hcid
    rcases List.mem_cons.mp hp with rfl | hmem
    · rw [getSlot, if_pos hcid] at h
      exact Option.some.inj h
    · by_cases hq : q.1 = cid
      · exfalso
        apply hn.1
        rw [hq, ← hcid]
        exact List.mem_map_of_mem Prod.fst hmem
      · rw [getSlot, if_neg hq] at h
        exact ih hn.2 h p hmem hcid

/-- Replacing a live slot with another live record preserves the ordered
key list of the live clients — the load-balancing ring. -/
theorem liveKeys_replaceSlot_live (reg : List (String × Option ClientRecord))
    (cid : String) (r1 : ClientRecord)
    (hall : ∀ p ∈ reg, p.1 = cid → ∃ r0, p.2 = some r0) :
    (liveClients (replaceSlot reg cid (some r1))).map Prod.fst =
      (liveClients reg).map Prod.fst := by
  induction reg with
  | nil => rfl
  | cons p tl ih =>
    have ihtl := ih fun q hq => hall q (by simp [hq])
    simp only [liveClients] at ihtl
    by_cases hp : p.1 = cid
    · obtain ⟨r0, hr0⟩ := hall p (by simp) hp
      simp [replaceSlot, liveClients, hp, hr0, ihtl]
    · cases hb : p.2 with
      | none => simp [replaceSlot, liveClients, hp, hb, ihtl]
      | some r => simp [replaceSlot, liveClients, hp, hb, ihtl]

/-! ## The public-request dispatcher (`app.all("/*")`, app.ts 276–443) -/

/-- The server environment as the catch-all route reads it.  `authRule`
is the compiled `AUTH_RULE` regex, abstracted to its `test` predicate
(`null` when `AUTH_RULE` is unset or not yet compiled). -/
structure Env where
  AUTH_TOKEN : Option String
  authRule : Option (String → Bool)
  FORWARD_HOST : Option String
  BUFFER_REQUEST : Option String

/-- A public request as the catch-all route consumes it.  `headersIn`
are `req.headers.entries()` (names already lowercased by the `Headers`
class); `bodyChunks` are the chunks the body reader yields (`none` for a
bodiless request). -/
structure PublicRequest where
  method : String
  pathname : String
  search : String
  protocol : String
  host : String
  headersIn : List (String × String)
  xAuthToken : Option String
  authorization : Option String
  xForwardedFor : Option String
  remoteAddr : Option String
  bodyChunks : Option (List (List Nat))

/-- `passAuth` (app.ts 56–58): true — meaning the request skips the
token check — precisely when a rule is set and the path does NOT match
it. -/
def passAuth (authRule : Option (String → Bool)) (path : String) : Bool :=
  match authRule with
  | some rule => !(rule path)
  | none => false

/-- The bearer credential (app.ts 279–281):
`x-auth-token || authorization`, then `auth &&= stripStart(auth, "Bearer ")`. -/
def bearerAuth (req : PublicRequest) : Option String :=
  match falsyOr req.xAuthToken req.authorization with
  | none => none
  | some s => if s = "" then some "" else some (stripStart s "Bearer ")

/-- The rejection condition of app.ts 284:
`AUTH_TOKEN && auth !== AUTH_TOKEN && !passAuth(ctx.req.path)`. -/
def authRejects (env : Env) (req : PublicRequest) : Bool :=
  match env.AUTH_TOKEN with
  | none => false
  | some tok => tok ≠ "" && bearerAuth req ≠ some tok && !passAuth env.authRule req.pathname

/-- `!["HEAD", "OPTIONS"].includes(ctx.req.method)` (app.ts 277). -/
def respondBody (req : PublicRequest) : Bool :=
  !(req.method = "HEAD" || req.method = "OPTIONS")

/-- The caller's IP (app.ts 300–309): forwarded-for header if truthy,
else the transport's remote address, else `""`. -/
def requestIp (req : PublicRequest) : String :=
  if truthyStr req.xForwardedFor then req.xForwardedFor.getD ""
  else req.remoteAddr.getD ""

def headersHas (hs : List (String × String)) (k : String) : Bool :=
  hs.any fun p => p.1 == k

/-- `Headers.set`: replace in place or append. -/
def headersSet (hs : List (String × String)) (k v : String) :
    List (String × String) :=
  if headersHas hs k then hs.map fun p => if p.1 == k then (p.1, v) else p
  else hs ++ [(k, v)]

/-- Forwarding-header assembly (app.ts 315–332). -/
def assembleHeaders (env : Env) (req : PublicRequest) : List (String × String) :=
  let ip := requestIp req
  let h1 :=
    if ip ≠ "" && !headersHas req.headersIn "x-forwarded-for" then
      headersSet req.headersIn "x-forwarded-for" ip
    else req.headersIn
  let h2 :=
    if !headersHas h1 "x-forwarded-proto" then
      headersSet h1 "x-forwarded-proto" (req.protocol.dropRight 1)
    else h1
  if !envBool env.FORWARD_HOST && !headersHas h2 "x-forwarded-host" then
    headersSet h2 "x-forwarded-host" req.host
  else if !headersHas h2 "host" then headersSet h2 "host" req.host
  else h2

/-- Frames the dispatcher sends on the control socket (string-level view
of the wire frames). -/
inductive SFrame where
  | header (requestId method path : String) (headers : List (String × String))
      (eof : Bool)
  | body (requestId : String) (data : Option (List Nat)) (eof : Bool)
  | request (requestId method path : String) (headers : List (String × String))
      (body : Option (List Nat))
  | abort (requestId : String)
deriving DecidableEq

/-- The asynchronous body pump (app.ts 366–391): one `body` frame per
chunk, then a terminal `eof` frame with no data. -/
def bodyPumpFrames (rid : String) (chunks : List (List Nat)) : List SFrame :=
  (chunks.map fun c => SFrame.body rid (some c) false) ++ [SFrame.body rid none true]

/-- Digits of `Number.prototype.toString(32)`. -/
def base32Digit (d : Nat) : Char :=
  if d < 10 then Char.ofNat (48 + d) else Char.ofNat (87 + d)

def toBase32Aux : Nat → Nat → List Char
  | 0, _ => []
  | fuel + 1, n =>
    if n < 32 then [base32Digit n]
    else toBase32Aux fuel (n / 32) ++ [base32Digit (n % 32)]

/-- `nextId` (app.ts 60–64): the counter in base 32. -/
def toBase32 (n : Nat) : String :=
  ⟨toBase32Aux (n + 1) n⟩

/-- What the catch-all route returns before awaiting: a synthetic
response, or the fact that it forwarded frames to a client. -/
inductive HandleResult where
  | response (status : Nat) (statusText : String) (body : Option String)
  | upstream (r : Resolution)
  | forwarded (clientId rid : String) (frames : List SFrame)
deriving DecidableEq

/-- The synchronous part of the catch-all route (app.ts 276–399):
admission, selection, header assembly, allocation, transmission.
Returns the result together with the new server state (unchanged for
the 401/503 rejections).  The `abort` listener registered at app.ts
394–399 fires only on an abort signal and is not part of the frames
produced here. -/
def handleRequest (env : Env) (req : PublicRequest) (st : ServerState) :
    HandleResult × ServerState :=
  if authRejects env req then
    (.response 401 "Unauthorized"
      (if respondBody req then some "Unauthorized" else none), st)
  else
    match liveClients st.clients with
    | [] =>
      (.response 503 "Service Unavailable"
        (if respondBody req then some "No proxy client" else none), st)
    | c0 :: rest =>
      let live := c0 :: rest
      let ip := requestIp req
      let modId := crc32Str ip % live.length
      let client := live.getD modId c0
      let rid := toBase32 st.ctr
      let path := req.pathname ++ req.search
      let headers := assembleHeaders env req
      let st2 := { dispatchRequest client.1 rid st with ctr := st.ctr + 1 }
      if envBool env.BUFFER_REQUEST then
        (.forwarded client.1 rid
          [SFrame.request rid req.method path headers (req.bodyChunks.map List.flatten)],
          st2)
      else
        let headerFrame := SFrame.header rid req.method path headers req.bodyChunks.isNone
        let pumpFrames :=
          match req.bodyChunks with
          | none => []
          | some chunks => bodyPumpFrames rid chunks
        (.forwarded client.1 rid (headerFrame :: pumpFrames), st2)

/-- Which promise won `Promise.any([task, sleep(30_000)])`. -/
inductive AwaitOutcome where
  | task (r : Resolution)
  | timeout
deriving DecidableEq

/-- The await-and-cleanup tail of the catch-all route (app.ts 401–443):
delete the task and the id from the captured record regardless of the
outcome; pass a resolved response or WebSocket stream through; answer
`504 "Proxy client timeout"` when the 30-second sleep won. -/
def finishRequest (st : ServerState) (rid : String) (outcome : AwaitOutcome)
    (respBody : Bool) : HandleResult × ServerState :=
  let st2 := cleanupRequest rid st
  match outcome with
  | .task r => (.upstream r, st2)
  | .timeout =>
    (.response 504 "Gateway Timeout"
      (if respBody then some "Proxy client timeout" else none), st2)

/-! ## The binary-message guard (app.ts 179–186, proxy.ts 189–197)

Both message listeners decode a binary payload with `unpack` and run

```text
if (typeof frame !== "object" &&
    (!frame || typeof frame.type !== "string" || typeof frame.requestId !== "string")
) { return }
```

before handing the value to `processResponseMessage` /
`processRequestMessage`.  To settle what this does on arbitrary decoded
values we model the JS value domain and `typeof` / truthiness /
property-access semantics. -/

inductive JSVal where
  | null
  | undefv
  | bool (b : Bool)
  | num (n : Int)
  | str (s : String)
  | bin (bytes : List Nat)
  | arr (xs : List JSVal)
  | obj (fields : List (String × JSVal))

/-- JS `typeof`; note `typeof null === "object"`. -/
def jsTypeof : JSVal → String
  | .null => "object"
  | .undefv => "undefined"
  | .bool _ => "boolean"
  | .num _ => "number"
  | .str _ => "string"
  | .bin _ => "object"
  | .arr _ => "object"
  | .obj _ => "object"

def jsTruthy : JSVal → Bool
  | .null => false
  | .undefv => false
  | .bool b => b
  | .num n => n ≠ 0
  | .str s => s ≠ ""
  | .bin _ => true
  | .arr _ => true
  | .obj _ => true

/-- Property read `v.k` for the values the guard can reach: own
properties of plain objects; `undefined` on primitives, arrays and byte
buffers (none has a `type` or `requestId` own property).  Reading a
property of `null` / `undefined` throws in JS; the guard never does so
(short-circuiting), and the listener body's throwing read is modelled
explicitly in `classifyBinaryMessage`. -/
def getProp (v : JSVal) (k : String) : JSVal :=
  match v with
  | .obj fields => (((fields.find? fun p => p.1 == k).map Prod.snd).getD .undefv)
  | _ => .undefv

/-- The guard condition exactly as written — `&&` joining the
typeof-object test with the field checks. -/
def messageGuardDrops (frame : JSVal) : Bool :=
  jsTypeof frame ≠ "object" &&
    (!jsTruthy frame || jsTypeof (getProp frame "type") ≠ "string" ||
      jsTypeof (getProp frame "requestId") ≠ "string")

/-- Observable outcome of the message listener on a decoded binary
frame. -/
inductive MsgOutcome where
  | dropped
  | throws
  | headerFrame (rid : String)
  | bodyFrame (rid : String)
  | ignored
deriving DecidableEq

/-- The listener's behaviour after the guard: `frame.type` throws a
`TypeError` on `null` (and would on `undefined`); a string `type` of
`"header"` / `"body"` with a string `requestId` reaches the matching
branch of the processor; any other shape falls through without touching
any state (a non-string `requestId` can never equal a string `Map`
key). -/
def classifyBinaryMessage (frame : JSVal) : MsgOutcome :=
  if messageGuardDrops frame then .dropped
  else
    match frame with
    | .null => .throws
    | .undefv => .throws
    | _ =>
      match getProp frame "type", getProp frame "requestId" with
      | .str "header", .str rid => .headerFrame rid
      | .str "body", .str rid => .bodyFrame rid
      | _, _ => .ignored

/-- The schema property the spec demands the decoder enforce: the frame
has a string `type` and a string `requestId`. -/
def lacksStringTypeOrRequestId (frame : JSVal) : Bool :=
  jsTypeof (getProp frame "type") ≠ "string" ||
    jsTypeof (getProp frame "requestId") ≠ "string"

/-! ## Client-side request executor (`src/client/proxy.ts`) -/

/-- What the local `fetch` resolved to (`Result.try(fetch(req))` with
`result.ok`): headers as `res.headers.entries()` yields them (lowercase
names), `bodyChunks = none` when `res.body` is `null`. -/
structure LocalResponse where
  status : Nat
  statusText : String
  headers : List (String × String)
  bodyChunks : Option (List (List Nat))

/-- Response frames the client emits through `respond` (string-level
view). -/
inductive CFrame where
  | header (requestId : String) (status : Nat) (statusText : String)
      (headers : List (String × String)) (eof : Bool)
  | body (requestId : String) (data : Option (List Nat)) (eof : Bool)
deriving DecidableEq

def CFrame.isHeader : CFrame → Bool
  | .header .. => true
  | .body .. => false

/-- The WebSocket-upgrade test of proxy.ts 213–216. -/
def isWsUpgrade (method : String) (headers : List (String × String)) : Bool :=
  method = "GET" &&
    ((headers.find? fun p => p.1 == "connection").map Prod.snd) = some "Upgrade" &&
    ((headers.find? fun p => p.1 == "upgrade").map Prod.snd) = some "websocket"

/-- The non-WebSocket path of `processRequestMessage` for a `header`
frame (proxy.ts 202–283), given the outcome of the local fetch:
on fetch failure emit a single `502 Bad Gateway` header frame with
`eof=true`; on success emit one header frame carrying the local status,
statusText and headers with every `content-encoding` entry filtered out
and `eof` true iff the response has no body, followed by one `body`
frame per chunk and a terminal `eof` frame. -/
def executeFetchedRequest (rid : String) (fetched : Option LocalResponse) :
    List CFrame :=
  match fetched with
  | none => [CFrame.header rid 502 "Bad Gateway" [] true]
  | some res =>
    CFrame.header rid res.status res.statusText
        (res.headers.filter fun p => p.1 ≠ "content-encoding")
        res.bodyChunks.isNone ::
      (match res.bodyChunks with
       | none => []
       | some chunks =>
         (chunks.map fun c => CFrame.body rid (some c) false) ++
           [CFrame.body rid none true])

/-- `processRequestMessage` on a `header` frame (proxy.ts 201–283): the
WebSocket-upgrade test branches away to the tunnelling path (no response
frames); otherwise the local request is issued and the frames of
`executeFetchedRequest` are emitted. -/
def processRequestHeader (rid method : String) (headers : List (String × String))
    (fetched : Option LocalResponse) : Option (List CFrame) :=
  if isWsUpgrade method headers then none
  else some (executeFetchedRequest rid fetched)

/-! ## Claim theorems -/

/-- C2: the spec says a decoded binary frame lacking a string `type` or
string `requestId` is silently dropped on both ends, mutating nothing
and never throwing.  The guard in both message listeners joins its two
clauses with `&&` where the schema check requires `||`, so any
object-typed value — including `null`, the decoding of the MessagePack
nil byte `0xc0` — slips past it, and the processor's very first read
`frame.type` then throws a `TypeError` on `null`.  This theorem
evaluates the code at the failing input: `null` lacks a string `type`,
the guard does not drop it, and processing throws. -/
theorem c2_nil_frame_throws :
    lacksStringTypeOrRequestId JSVal.null = true ∧
    messageGuardDrops JSVal.null = false ∧
    classifyBinaryMessage JSVal.null = .throws ∧
    unpack [0xc0] = some MpVal.nil := by
  refine ⟨by decide, by decide, by decide, ?_⟩
  have h1 : decodeVal 1 [0xc0] = some (.nil, []) := by
    rw [show (1 : Nat) = Nat.succ 0 from rfl, decodeVal.eq_3]
    norm_num
  simp [unpack, h1]

/-- C8 counterexample: the claim quantifies over *every* public request
arriving with zero live clients, but admission runs first: with
`AUTH_TOKEN` configured and no credential supplied, the dispatcher
answers `401 "Unauthorized"`, not `503 "No proxy client"`, even though
no client is live. -/
theorem c8_counterexample :
    liveClients initState.clients = [] ∧
    (handleRequest
      ⟨some "secret", none, none, none⟩
      ⟨"GET", "/x", "", "https:", "example.com", [], none, none, none, none, none⟩
      initState).1 = .response 401 "Unauthorized" (some "Unauthorized") ∧
    (handleRequest
      ⟨some "secret", none, none, none⟩
      ⟨"GET", "/x", "", "https:", "example.com", [], none, none, none, none, none⟩
      initState).1 ≠ .response 503 "Service Unavailable" (some "No proxy client") := by
  refine ⟨rfl, by decide, by decide⟩

/-- C8 (amended): for every public request that passes admission and
arrives while zero clients are live, the dispatcher responds 503
"Service Unavailable" with body "No proxy client" (empty body for HEAD
or OPTIONS); the state is unchanged — no RequestId is allocated and no
frame is sent. -/
theorem c8_no_client_503 (env : Env) (req : PublicRequest) (st : ServerState)
    (hadm : authRejects env req = false) (hno : liveClients st.clients = []) :
    handleRequest env req st =
      (.response 503 "Service Unavailable"
        (if respondBody req then some "No proxy client" else none), st) := by
  unfold handleRequest
  rw [hadm, hno]
  rfl

/-- Witness for C8 (amended) at, in particular, a HEAD request: the 503
body is empty and the state is untouched. -/
theorem c8_no_client_503_witness :
    authRejects ⟨none, none, none, none⟩
      ⟨"HEAD", "/x", "", "https:", "h", [], none, none, none, none, none⟩ = false ∧
    liveClients initState.clients = [] ∧
    handleRequest ⟨none, none, none, none⟩
      ⟨"HEAD", "/x", "", "https:", "h", [], none, none, none, none, none⟩
      initState =
      (.response 503 "Service Unavailable" none, initState) := by
  refine ⟨by decide, rfl, ?_⟩
  have h := c8_no_client_503 ⟨none, none, none, none⟩
    ⟨"HEAD", "/x", "", "https:", "h", [], none, none, none, none, none⟩
    initState (by decide) rfl
  simpa using h

/-- C1 counterexample: `passAuth` returns true — skip the token check —
precisely when the path does NOT match `authRule`; so with `AUTH_TOKEN`
set, a missing credential, and a rule matching the path, the dispatcher
answers 401.  The claim says a path matching AUTH_RULE bypasses the auth
check and is proxied. -/
theorem c1_counterexample :
    (fun p => p == "/admin") "/admin" = true ∧
    (handleRequest
      ⟨some "secret", some (fun p => p == "/admin"), none, none⟩
      ⟨"GET", "/admin", "", "https:", "h", [], none, none, none, none, none⟩
      initState).1 = .response 401 "Unauthorized" (some "Unauthorized") := by
  exact ⟨by decide, by decide⟩

/-- C1 (amended): when AUTH_TOKEN is configured (truthy) and the
supplied bearer credential does not match it, the dispatcher rejects
with 401 and body "Unauthorized" (empty for HEAD or OPTIONS) if and only
if `passAuth` is false — that is, iff no AUTH_RULE is configured or the
request path MATCHES the AUTH_RULE regex; a path that does NOT match a
configured AUTH_RULE bypasses the auth check and proceeds to
selection. -/
theorem c1_auth_gate (env : Env) (req : PublicRequest) (st : ServerState)
    (tok : String) (htok : env.AUTH_TOKEN = some tok) (hne : tok ≠ "")
    (hmis : bearerAuth req ≠ some tok) :
    ((handleRequest env req st).1 =
        .response 401 "Unauthorized"
          (if respondBody req then some "Unauthorized" else none) ↔
      passAuth env.authRule req.pathname = false) ∧
    (∀ rule, env.authRule = some rule →
      (passAuth env.authRule req.pathname = false ↔ rule req.pathname = true)) ∧
    (env.authRule = none → passAuth env.authRule req.pathname = false) := by
  have ha : authRejects env req = !passAuth env.authRule req.pathname := by
    unfold authRejects
    rw [htok]
    simp [hne, hmis]
  refine ⟨?_, ?_, ?_⟩
  · constructor
    · intro hL
      by_contra hpass
      have hpt : passAuth env.authRule req.pathname = true := by
        cases hb : passAuth env.authRule req.pathname
        · exact absurd hb hpass
        · rfl
      have hfalse : authRejects env req = false := by rw [ha, hpt]; rfl
      unfold handleRequest at hL
      rw [hfalse] at hL
      revert hL
      cases hlc : liveClients st.clients with
      | nil =>
        intro hL
        simp at hL
      | cons c0 rest =>
        intro hL
        by_cases hb : envBool env.BUFFER_REQUEST = true
        · simp [hb] at hL
        · simp [hb] at hL
    · intro hpass
      have htrue : authRejects env req = true := by rw [ha, hpass]; rfl
      unfold handleRequest
      rw [htrue]
      rfl
  · intro rule hrule
    rw [hrule]
    unfold passAuth
    simp
  · intro hrule
    rw [hrule]
    rfl

/-- Witness for C1 (amended): with a rule matching "/admin", a GET to
"/admin" with no credential is rejected 401 with body "Unauthorized". -/
theorem c1_auth_gate_witness :
    (⟨some "secret", some (fun p => p == "/admin"), none, none⟩ : Env).AUTH_TOKEN
        = some "secret" ∧
    "secret" ≠ "" ∧
    bearerAuth ⟨"GET", "/admin", "", "https:", "h", [], none, none, none, none, none⟩
        ≠ some "secret" ∧
    passAuth (some (fun p => p == "/admin")) "/admin" = false ∧
    (handleRequest
      ⟨some "secret", some (fun p => p == "/admin"), none, none⟩
      ⟨"GET", "/admin", "", "https:", "h", [], none, none, none, none, none⟩
      initState).1 = .response 401 "Unauthorized" (some "Unauthorized") := by
  refine ⟨rfl, by decide, by decide, by decide, ?_⟩
  have h := (c1_auth_gate
    ⟨some "secret", some (fun p => p == "/admin"), none, none⟩
    ⟨"GET", "/admin", "", "https:", "h", [], none, none, none, none, none⟩
    initState "secret" rfl (by decide) (by decide)).1.mpr (by decide)
  simpa using h

theorem filter_isHeader_bodies (rid : String) (chunks : List (List Nat)) :
    (((chunks.map fun c => CFrame.body rid (some c) false) ++
      [CFrame.body rid none true]).filter CFrame.isHeader) = [] := by
  induction chunks with
  | nil => rfl
  | cons c tl ih => simp [CFrame.isHeader, ih]

/-- C9: for every request-header frame that is not a WebSocket upgrade
and whose local-origin fetch succeeds, the client executor emits exactly
one response-header frame; it is the first frame emitted and carries the
local response's status, statusText, and headers with every
content-encoding entry omitted, and its `eof` is true iff the local
response has no body. -/
theorem c9_response_header (rid method : String) (hs : List (String × String))
    (res : LocalResponse) (hws : isWsUpgrade method hs = false) :
    processRequestHeader rid method hs (some res) =
      some (executeFetchedRequest rid (some res)) ∧
    ((executeFetchedRequest rid (some res)).filter CFrame.isHeader).length = 1 ∧
    (executeFetchedRequest rid (some res)).head? =
      some (CFrame.header rid res.status res.statusText
        (res.headers.filter fun p => p.1 ≠ "content-encoding")
        res.bodyChunks.isNone) ∧
    (∀ p ∈ res.headers.filter fun p => p.1 ≠ "content-encoding",
      p.1 ≠ "content-encoding") ∧
    (res.bodyChunks.isNone = true ↔ res.bodyChunks = none) := by
  refine ⟨by simp [processRequestHeader, hws], ?_, ?_, ?_, ?_⟩
  · cases hb : res.bodyChunks with
    | none => simp [executeFetchedRequest, hb, CFrame.isHeader]
    | some chunks =>
      simp only [executeFetchedRequest, hb, List.filter_cons]
      rw [filter_isHeader_bodies]
      simp [CFrame.isHeader]
  · cases hb : res.bodyChunks <;> simp [executeFetchedRequest, hb]
  · intro p hp
    simpa using (List.mem_filter.mp hp).2
  · exact Option.isNone_iff_eq_none

/-- Witness for C9: a 200 response with one body chunk and a
content-encoding header that gets stripped. -/
theorem c9_response_header_witness :
    isWsUpgrade "GET" [("connection", "keep-alive")] = false ∧
    processRequestHeader "r1" "GET" [("connection", "keep-alive")]
      (some ⟨200, "OK", [("content-encoding", "gzip"), ("a", "b")], some [[104, 105]]⟩) =
      some (executeFetchedRequest "r1"
        (some ⟨200, "OK", [("content-encoding", "gzip"), ("a", "b")], some [[104, 105]]⟩)) ∧
    (executeFetchedRequest "r1"
      (some ⟨200, "OK", [("content-encoding", "gzip"), ("a", "b")], some [[104, 105]]⟩)).head? =
      some (CFrame.header "r1" 200 "OK" [("a", "b")] false) := by
  refine ⟨by decide, ?_, ?_⟩
  · exact (c9_response_header "r1" "GET" [("connection", "keep-alive")]
      ⟨200, "OK", [("content-encoding", "gzip"), ("a", "b")], some [[104, 105]]⟩
      (by decide)).1
  · have h := (c9_response_header "r1" "GET" [("connection", "keep-alive")]
      ⟨200, "OK", [("content-encoding", "gzip"), ("a", "b")], some [[104, 105]]⟩
      (by decide)).2.2.1
    simpa using h

/-- C10: the `open` listener unconditionally overwrites an occupied slot
with a fresh record (empty `requests` and `responses`), and the `close`
listener operates on whatever record currently occupies the slot — here
the fresh one, so a close arriving after the overwrite resolves nothing
(`tasks` and `writers` are untouched, in particular any task pending for
the old record stays pending) and merely tombstones the slot. -/
theorem c10_overwrite_and_close (st : ServerState) (cid : String)
    (rOld : ClientRecord) (h : getSlot st.clients cid = some (some rOld)) :
    getSlot (openListener cid st).clients cid =
      some (some ⟨st.genCtr, ∅, ∅⟩) ∧
    (closeListener cid (openListener cid st)).tasks = st.tasks ∧
    (closeListener cid (openListener cid st)).writers = st.writers ∧
    getSlot (closeListener cid (openListener cid st)).clients cid = some none := by
  have h1 : getSlot (openListener cid st).clients cid =
      some (some ⟨st.genCtr, ∅, ∅⟩) := by
    show getSlot (setSlot st.clients cid (some ⟨st.genCtr, ∅, ∅⟩)) cid = _
    rw [getSlot_setSlot_self]
  have hrec : getRecord { st with
      clients := setSlot st.clients cid (some ⟨st.genCtr, ∅, ∅⟩),
      genCtr := st.genCtr + 1 } cid = some ⟨st.genCtr, ∅, ∅⟩ := by
    rw [getRecord]
    rw [show getSlot (setSlot st.clients cid (some ⟨st.genCtr, ∅, ∅⟩)) cid =
      some (some ⟨st.genCtr, ∅, ∅⟩) from getSlot_setSlot_self ..]
  refine ⟨h1, ?_, ?_, ?_⟩
  · show (closeListener cid { st with
      clients := setSlot st.clients cid (some ⟨st.genCtr, ∅, ∅⟩),
      genCtr := st.genCtr + 1 }).tasks = st.tasks
    unfold closeListener
    rw [hrec]
    funext rid
    simp
  · show (closeListener cid { st with
      clients := setSlot st.clients cid (some ⟨st.genCtr, ∅, ∅⟩),
      genCtr := st.genCtr + 1 }).writers = st.writers
    unfold closeListener
    rw [hrec]
    funext rid
    simp
  · show getSlot (closeListener cid { st with
      clients := setSlot st.clients cid (some ⟨st.genCtr, ∅, ∅⟩),
      genCtr := st.genCtr + 1 }).clients cid = some none
    unfold closeListener
    rw [hrec]
    show getSlot (setSlot (setSlot st.clients cid (some ⟨st.genCtr, ∅, ∅⟩)) cid none)
      cid = some none
    rw [getSlot_setSlot_self]

/-- Witness for C10: a one-client registry whose slot is overwritten and
then closed; the pending task of the old record survives untouched. -/
theorem c10_overwrite_and_close_witness :
    getSlot [("a", some ⟨0, {"r"}, ∅⟩)] "a" = some (some ⟨0, {"r"}, ∅⟩) ∧
    (closeListener "a" (openListener "a"
      ⟨[("a", some ⟨0, {"r"}, ∅⟩)],
        mapSet (fun _ => none) "r" ⟨"a", 0, .pending⟩, fun _ => none, {"r"}, 1, 1⟩)).tasks =
      mapSet (fun _ => none) "r" ⟨"a", 0, .pending⟩ ∧
    getSlot (closeListener "a" (openListener "a"
      ⟨[("a", some ⟨0, {"r"}, ∅⟩)],
        mapSet (fun _ => none) "r" ⟨"a", 0, .pending⟩, fun _ => none, {"r"}, 1, 1⟩)).clients
      "a" = some none := by
  refine ⟨by decide, ?_, ?_⟩
  · exact (c10_overwrite_and_close
      ⟨[("a", some ⟨0, {"r"}, ∅⟩)],
        mapSet (fun _ => none) "r" ⟨"a", 0, .pending⟩, fun _ => none, {"r"}, 1, 1⟩
      "a" ⟨0, {"r"}, ∅⟩ (by decide)).2.1
  · exact (c10_overwrite_and_close
      ⟨[("a", some ⟨0, {"r"}, ∅⟩)],
        mapSet (fun _ => none) "r" ⟨"a", 0, .pending⟩, fun _ => none, {"r"}, 1, 1⟩
      "a" ⟨0, {"r"}, ∅⟩ (by decide)).2.2.2

/-- Helper: a live record means the registry has the key. -/
theorem hasKey_of_getRecord (st : ServerState) (cid : String) (rec : ClientRecord)
    (h : getRecord st cid = some rec) :
    getSlot st.clients cid = some (some rec) ∧ hasKey st.clients cid = true := by
  rw [getRecord] at h
  have h2 : getSlot st.clients cid = some (some rec) := by
    revert h
    cases hg : getSlot st.clients cid with
    | none => intro h; cases h
    | some w =>
      cases w with
      | none => intro h; cases h
      | some r => intro h; rw [Option.some.inj h]
  refine ⟨h2, ?_⟩
  rw [hasKey_eq_isSome, h2]
  rfl

/-- C5: when a client's control channel closes, the server (1) resolves
every still-pending RequestTask whose id is in that client's
pendingRequests with a synthetic `500 "Internal Server Error"`,
(2) closes every open ResponseBodyWriter whose id is in its
activeResponses, and (3) replaces the ClientRecord with a tombstone
(`null`) rather than deleting the key: the registry's key list is
unchanged, and after the client reconnects the ordered list of live
client ids — the load-balancing ring — is exactly what it was before the
close. -/
theorem c5_close_drains (st : ServerState) (cid : String) (rec : ClientRecord)
    (hrec : getRecord st cid = some rec)
    (hnodup : (st.clients.map Prod.fst).Nodup) (g : Nat) :
    (∀ rid ∈ rec.requests, ∀ e, st.tasks rid = some e → e.status = .pending →
      (closeListener cid st).tasks rid =
        some { e with status := .resolved (.bodyless 500 "Internal Server Error" []) }) ∧
    (∀ rid ∈ rec.responses, st.writers rid = some true →
      (closeListener cid st).writers rid = some false) ∧
    getSlot (closeListener cid st).clients cid = some none ∧
    ((closeListener cid st).clients.map Prod.fst = st.clients.map Prod.fst) ∧
    ((liveClients (setSlot (closeListener cid st).clients cid
        (some ⟨g, ∅, ∅⟩))).map Prod.fst = (liveClients st.clients).map Prod.fst) := by
  obtain ⟨hslot, hkey⟩ := hasKey_of_getRecord st cid rec hrec
  have hclients : (closeListener cid st).clients = setSlot st.clients cid none := by
    unfold closeListener
    rw [hrec]
  refine ⟨?_, ?_, ?_, ?_, ?_⟩
  · intro rid hmem e he hp
    unfold closeListener
    rw [hrec]
    simp [hmem, he, hp]
  · intro rid hmem hw
    unfold closeListener
    rw [hrec]
    simp [hmem, hw]
  · rw [hclients, getSlot_setSlot_self]
  · rw [hclients, keys_setSlot_has st.clients cid none hkey]
  · rw [hclients, setSlot_setSlot, setSlot, if_pos hkey]
    exact liveKeys_replaceSlot_live st.clients cid ⟨g, ∅, ∅⟩
      fun p hp hc => ⟨rec, all_eq_of_nodup_getSlot st.clients cid (some rec)
        hnodup hslot p hp hc⟩

/-- Witness for C5 on a three-client registry: closing the middle client
resolves its pending task with 500, closes its writer, tombstones its
slot, and a reconnect restores the live ring `[a, b, c]`. -/
theorem c5_close_drains_witness :
    getRecord ⟨[("a", some ⟨0, ∅, ∅⟩), ("b", some ⟨1, {"r"}, {"s"}⟩),
        ("c", some ⟨2, ∅, ∅⟩)],
      mapSet (fun _ => none) "r" ⟨"b", 1, .pending⟩,
      mapSet (fun _ => none) "s" true, {"r", "s"}, 3, 2⟩ "b" = some ⟨1, {"r"}, {"s"}⟩ ∧
    (closeListener "b" ⟨[("a", some ⟨0, ∅, ∅⟩), ("b", some ⟨1, {"r"}, {"s"}⟩),
        ("c", some ⟨2, ∅, ∅⟩)],
      mapSet (fun _ => none) "r" ⟨"b", 1, .pending⟩,
      mapSet (fun _ => none) "s" true, {"r", "s"}, 3, 2⟩).tasks "r" =
      some ⟨"b", 1, .resolved (.bodyless 500 "Internal Server Error" [])⟩ ∧
    (closeListener "b" ⟨[("a", some ⟨0, ∅, ∅⟩), ("b", some ⟨1, {"r"}, {"s"}⟩),
        ("c", some ⟨2, ∅, ∅⟩)],
      mapSet (fun _ => none) "r" ⟨"b", 1, .pending⟩,
      mapSet (fun _ => none) "s" true, {"r", "s"}, 3, 2⟩).writers "s" = some false ∧
    (liveClients (setSlot (closeListener "b"
      ⟨[("a", some ⟨0, ∅, ∅⟩), ("b", some ⟨1, {"r"}, {"s"}⟩), ("c", some ⟨2, ∅, ∅⟩)],
        mapSet (fun _ => none) "r" ⟨"b", 1, .pending⟩,
        mapSet (fun _ => none) "s" true, {"r", "s"}, 3, 2⟩).clients "b"
      (some ⟨3, ∅, ∅⟩))).map Prod.fst = ["a", "b", "c"] := by
  have h := c5_close_drains
    ⟨[("a", some ⟨0, ∅, ∅⟩), ("b", some ⟨1, {"r"}, {"s"}⟩), ("c", some ⟨2, ∅, ∅⟩)],
      mapSet (fun _ => none) "r" ⟨"b", 1, .pending⟩,
      mapSet (fun _ => none) "s" true, {"r", "s"}, 3, 2⟩
    "b" ⟨1, {"r"}, {"s"}⟩ (by decide) (by decide) 3
  refine ⟨by decide, ?_, ?_, ?_⟩
  · exact h.1 "r" (by decide) ⟨"b", 1, .pending⟩ (by decide) rfl
  · exact h.2.1 "s" (by decide) (by decide)
  · rw [h.2.2.2.2]
    decide

/-- The client a dispatched request was sent to, if any. -/
def forwardedTo : HandleResult → Option String
  | .forwarded cid _ _ => some cid
  | _ => none

/-- C4: every admitted public request arriving while at least one client
is live is forwarded to exactly the client at position
`CRC32(ip) mod N` in the insertion order of the live registry slots
(tombstones skipped by `liveClients`), where `ip` is the forwarded-for
header or the remote address (empty string if neither is available). -/
theorem c4_selection (env : Env) (req : PublicRequest) (st : ServerState)
    (hadm : authRejects env req = false)
    (hlive : liveClients st.clients ≠ []) :
    forwardedTo (handleRequest env req st).1 =
      ((liveClients st.clients).get? (crc32Str (requestIp req) %
        (liveClients st.clients).length)).map Prod.fst := by
  unfold handleRequest
  rw [hadm]
  cases hlc : liveClients st.clients with
  | nil => exact absurd hlc hlive
  | cons c0 rest =>
    have hmod : crc32Str (requestIp req) % (c0 :: rest).length < (c0 :: rest).length :=
      Nat.mod_lt _ (by simp)
    have hgd : (c0 :: rest).getD (crc32Str (requestIp req) % (c0 :: rest).length) c0 =
        (c0 :: rest)[crc32Str (requestIp req) % (c0 :: rest).length] := by
      rw [List.getD_eq_getElem?_getD, List.getElem?_eq_getElem hmod]
      rfl
    have hget : (c0 :: rest).get? (crc32Str (requestIp req) % (c0 :: rest).length) =
        some ((c0 :: rest)[crc32Str (requestIp req) % (c0 :: rest).length]) := by
      rw [List.get?_eq_getElem?, List.getElem?_eq_getElem hmod]
    have hmod2 : crc32Str (requestIp req) % (rest.length + 1) < (c0 :: rest).length :=
      Nat.mod_lt _ (by omega)
    by_cases hb : envBool env.BUFFER_REQUEST = true <;>
      simp [hb, forwardedTo, hgd, hget] <;>
      rw [List.getElem?_eq_getElem hmod2] <;> rfl

/-- Witness for C4: two live clients around a tombstone; the caller's
forwarded-for IP `1.2.3.4` lands on `CRC32("1.2.3.4") mod 2 = 1`, the
second live client `c`. -/
theorem c4_selection_witness :
    authRejects ⟨none, none, none, none⟩
      ⟨"GET", "/x", "", "https:", "h", [], none, none, some "1.2.3.4", none, none⟩
        = false ∧
    liveClients [("a", some ⟨0, ∅, ∅⟩), ("b", (none : Option ClientRecord)),
      ("c", some ⟨2, ∅, ∅⟩)] ≠ [] ∧
    crc32Str "1.2.3.4" % 2 = 1 ∧
    forwardedTo (handleRequest ⟨none, none, none, none⟩
      ⟨"GET", "/x", "", "https:", "h", [], none, none, some "1.2.3.4", none, none⟩
      ⟨[("a", some ⟨0, ∅, ∅⟩), ("b", none), ("c", some ⟨2, ∅, ∅⟩)],
        fun _ => none, fun _ => none, ∅, 3, 0⟩).1 = some "c" := by
  refine ⟨by decide, by decide, by decide, ?_⟩
  have h := c4_selection ⟨none, none, none, none⟩
    ⟨"GET", "/x", "", "https:", "h", [], none, none, some "1.2.3.4", none, none⟩
    ⟨[("a", some ⟨0, ∅, ∅⟩), ("b", none), ("c", some ⟨2, ∅, ∅⟩)],
      fun _ => none, fun _ => none, ∅, 3, 0⟩ (by decide) (by decide)
  rw [h]
  decide

/-! ## Reachability invariants

The inductive invariant used to settle C3 (amended) and C6.  Besides the
two claim-facing components — `overlap` (ids in both `pendingRequests`
and `activeResponses` belong to a resolved-but-not-yet-cleaned task) and
`writerResolved` (a writer only exists for requests whose task has been
resolved) — it carries the bookkeeping facts that make the induction go
through: registry keys are unique, every id in play was allocated, and a
pending-request id's task entry points at the very record that owns
it. -/

theorem getRecord_of_getSlot_live (st : ServerState) (cid : String)
    (r : ClientRecord) (h : getSlot st.clients cid = some (some r)) :
    getRecord st cid = some r := by
  unfold getRecord
  rw [h]

theorem getRecord_of_getSlot_tomb (st : ServerState) (cid : String)
    (h : getSlot st.clients cid = some none) : getRecord st cid = none := by
  unfold getRecord
  rw [h]

theorem getRecord_of_getSlot_none (st : ServerState) (cid : String)
    (h : getSlot st.clients cid = none) : getRecord st cid = none := by
  unfold getRecord
  rw [h]

theorem getSlot_live_of_getRecord (st : ServerState) (cid : String)
    (rec : ClientRecord) (h : getRecord st cid = some rec) :
    getSlot st.clients cid = some (some rec) :=
  (hasKey_of_getRecord st cid rec h).1

theorem hasKey_iff_mem_keys (reg : List (String × Option ClientRecord))
    (cid : String) : hasKey reg cid = true ↔ cid ∈ reg.map Prod.fst := by
  induction reg with
  | nil => simp [hasKey]
  | cons p tl ih =>
    rw [hasKey]
    simp only [List.map_cons, List.mem_cons, Bool.or_eq_true, decide_eq_true_eq, ih]
    constructor
    · rintro (h | h)
      · exact Or.inl h.symm
      · exact Or.inr h
    · rintro (h | h)
      · exact Or.inl h.symm
      · exact Or.inr h

structure Inv (st : ServerState) : Prop where
  nodupKeys : (st.clients.map Prod.fst).Nodup
  taskUsed : ∀ rid e, st.tasks rid = some e → rid ∈ st.usedIds
  writerUsed : ∀ rid b, st.writers rid = some b → rid ∈ st.usedIds
  requestsUsed : ∀ cid rec, getRecord st cid = some rec →
    ∀ rid ∈ rec.requests, rid ∈ st.usedIds
  responsesUsed : ∀ cid rec, getRecord st cid = some rec →
    ∀ rid ∈ rec.responses, rid ∈ st.usedIds
  taskGen : ∀ cid rec, getRecord st cid = some rec → ∀ rid ∈ rec.requests,
    ∀ e, st.tasks rid = some e → e.clientId = cid ∧ e.gen = rec.gen
  writerResolved : ∀ rid b e, st.writers rid = some b → st.tasks rid = some e →
    e.status ≠ .pending
  overlap : ∀ cid rec, getRecord st cid = some rec → ∀ rid,
    rid ∈ rec.requests → rid ∈ rec.responses →
    ∃ e r, st.tasks rid = some e ∧ e.status = .resolved r

theorem inv_initState : Inv initState := by
  have hrec : ∀ cid, getRecord initState cid = none := fun cid =>
    getRecord_of_getSlot_none initState cid rfl
  refine ⟨?_, ?_, ?_, ?_, ?_, ?_, ?_, ?_⟩
  · simp [initState]
  · intro rid e h
    simp [initState] at h
  · intro rid b h
    simp [initState] at h
  · intro cid rec h
    rw [hrec] at h
    cases h
  · intro cid rec h
    rw [hrec] at h
    cases h
  · intro cid rec h
    rw [hrec] at h
    cases h
  · intro rid b e h
    simp [initState] at h
  · intro cid rec h
    rw [hrec] at h
    cases h

theorem getRecord_clients_eq (st st2 : ServerState) (cid : String)
    (h : getSlot st2.clients cid = getSlot st.clients cid) :
    getRecord st2 cid = getRecord st cid := by
  unfold getRecord
  rw [h]

theorem inv_open (st : ServerState) (cid0 : String) (hInv : Inv st) :
    Inv (openListener cid0 st) := by
  have hcl : (openListener cid0 st).clients =
      setSlot st.clients cid0 (some ⟨st.genCtr, ∅, ∅⟩) := rfl
  have hrec : ∀ cid, getRecord (openListener cid0 st) cid =
      if cid = cid0 then some ⟨st.genCtr, ∅, ∅⟩ else getRecord st cid := by
    intro cid
    by_cases h : cid = cid0
    · subst h
      rw [if_pos rfl]
      exact getRecord_of_getSlot_live _ _ _
        (by rw [hcl]; exact getSlot_setSlot_self ..)
    · rw [if_neg h]
      exact getRecord_clients_eq st _ cid
        (by rw [hcl]; exact getSlot_setSlot_ne _ _ _ _ h)
  refine ⟨?_, ?_, ?_, ?_, ?_, ?_, ?_, ?_⟩
  · rw [hcl]
    by_cases h : hasKey st.clients cid0 = true
    · rw [keys_setSlot_has _ _ _ h]
      exact hInv.nodupKeys
    · have hnot : cid0 ∉ st.clients.map Prod.fst := by
        rw [← hasKey_iff_mem_keys]
        simp [h]
      rw [setSlot, if_neg h, List.map_append]
      simp [List.nodup_append, hInv.nodupKeys, hnot]
  · exact hInv.taskUsed
  · exact hInv.writerUsed
  · intro cid rec h rid hm
    rw [hrec] at h
    by_cases hc : cid = cid0
    · rw [if_pos hc] at h
      have he := Option.some.inj h
      rw [← he] at hm
      simp at hm
    · rw [if_neg hc] at h
      exact hInv.requestsUsed cid rec h rid hm
  · intro cid rec h rid hm
    rw [hrec] at h
    by_cases hc : cid = cid0
    · rw [if_pos hc] at h
      have he := Option.some.inj h
      rw [← he] at hm
      simp at hm
    · rw [if_neg hc] at h
      exact hInv.responsesUsed cid rec h rid hm
  · intro cid rec h rid hm e he
    rw [hrec] at h
    by_cases hc : cid = cid0
    · rw [if_pos hc] at h
      have h2 := Option.some.inj h
      rw [← h2] at hm
      simp at hm
    · rw [if_neg hc] at h
      exact hInv.taskGen cid rec h rid hm e he
  · exact hInv.writerResolved
  · intro cid rec h rid hm1 hm2
    rw [hrec] at h
    by_cases hc : cid = cid0
    · rw [if_pos hc] at h
      have h2 := Option.some.inj h
      rw [← h2] at hm1
      simp at hm1
    · rw [if_neg hc] at h
      exact hInv.overlap cid rec h rid hm1 hm2

theorem inv_close (st : ServerState) (cid0 : String) (hInv : Inv st) :
    Inv (closeListener cid0 st) := by
  cases hr0 : getRecord st cid0 with
  | none =>
    have he : closeListener cid0 st = st := by
      unfold closeListener
      rw [hr0]
    rw [he]
    exact hInv
  | some rec0 =>
    have hta : ∀ rid, (closeListener cid0 st).tasks rid =
        if rid ∈ rec0.requests then
          (st.tasks rid).map fun e =>
            if e.status = .pending then
              { e with status := .resolved (.bodyless 500 "Internal Server Error" []) }
            else e
        else st.tasks rid := by
      intro rid
      unfold closeListener
      rw [hr0]
    have hwr : ∀ rid, (closeListener cid0 st).writers rid =
        if rid ∈ rec0.responses then (st.writers rid).map fun _ => false
        else st.writers rid := by
      intro rid
      unfold closeListener
      rw [hr0]
    have hcl : (closeListener cid0 st).clients = setSlot st.clients cid0 none := by
      unfold closeListener
      rw [hr0]
    have husd : (closeListener cid0 st).usedIds = st.usedIds := by
      unfold closeListener
      rw [hr0]
    have hkey : hasKey st.clients cid0 = true :=
      (hasKey_of_getRecord st cid0 rec0 hr0).2
    have hrec : ∀ cid, getRecord (closeListener cid0 st) cid =
        if cid = cid0 then none else getRecord st cid := by
      intro cid
      by_cases h : cid = cid0
      · subst h
        rw [if_pos rfl]
        exact getRecord_of_getSlot_tomb _ _ (by rw [hcl]; exact getSlot_setSlot_self ..)
      · rw [if_neg h]
        exact getRecord_clients_eq st _ cid
          (by rw [hcl]; exact getSlot_setSlot_ne _ _ _ _ h)
    refine ⟨?_, ?_, ?_, ?_, ?_, ?_, ?_, ?_⟩
    · rw [hcl, keys_setSlot_has _ _ _ hkey]
      exact hInv.nodupKeys
    · intro rid e h
      rw [hta rid] at h
      rw [husd]
      by_cases hm : rid ∈ rec0.requests
      · rw [if_pos hm] at h
        obtain ⟨a, ha, _⟩ := Option.map_eq_some'.mp h
        exact hInv.taskUsed rid a ha
      · rw [if_neg hm] at h
        exact hInv.taskUsed rid e h
    · intro rid b h
      rw [hwr rid] at h
      rw [husd]
      by_cases hm : rid ∈ rec0.responses
      · rw [if_pos hm] at h
        obtain ⟨a, ha, _⟩ := Option.map_eq_some'.mp h
        exact hInv.writerUsed rid a ha
      · rw [if_neg hm] at h
        exact hInv.writerUsed rid b h
    · intro cid rec h rid hm
      rw [hrec] at h
      rw [husd]
      by_cases hc : cid = cid0
      · rw [if_pos hc] at h
        cases h
      · rw [if_neg hc] at h
        exact hInv.requestsUsed cid rec h rid hm
    · intro cid rec h rid hm
      rw [hrec] at h
      rw [husd]
      by_cases hc : cid = cid0
      · rw [if_pos hc] at h
        cases h
      · rw [if_neg hc] at h
        exact hInv.responsesUsed cid rec h rid hm
    · intro cid rec h rid hm e he
      rw [hrec] at h
      rw [hta rid] at he
      by_cases hc : cid = cid0
      · rw [if_pos hc] at h
        cases h
      · rw [if_neg hc] at h
        by_cases hq : rid ∈ rec0.requests
        · rw [if_pos hq] at he
          obtain ⟨a, ha, hf⟩ := Option.map_eq_some'.mp he
          have hg := hInv.taskGen cid rec h rid hm a ha
          rw [← hf]
          constructor
          · split_ifs <;> simpa using hg.1
          · split_ifs <;> simpa using hg.2
        · rw [if_neg hq] at he
          exact hInv.taskGen cid rec h rid hm e he
    · intro rid b e hw ht
      rw [hwr rid] at hw
      rw [hta rid] at ht
      have hwold : ∃ b2, st.writers rid = some b2 := by
        by_cases hm : rid ∈ rec0.responses
        · rw [if_pos hm] at hw
          obtain ⟨a, ha, _⟩ := Option.map_eq_some'.mp hw
          exact ⟨a, ha⟩
        · rw [if_neg hm] at hw
          exact ⟨b, hw⟩
      obtain ⟨b2, hb2⟩ := hwold
      by_cases hq : rid ∈ rec0.requests
      · rw [if_pos hq] at ht
        obtain ⟨a, ha, hf⟩ := Option.map_eq_some'.mp ht
        have hold := hInv.writerResolved rid b2 a hb2 ha
        rw [← hf]
        split_ifs with hp
        · simp
        · simpa using hold
      · rw [if_neg hq] at ht
        exact hInv.writerResolved rid b2 e hb2 ht
    · intro cid rec h rid hm1 hm2
      rw [hrec] at h
      by_cases hc : cid = cid0
      · rw [if_pos hc] at h
        cases h
      · rw [if_neg hc] at h
        obtain ⟨e, r, he, hr⟩ := hInv.overlap cid rec h rid hm1 hm2
        refine ⟨e, r, ?_, hr⟩
        rw [hta rid]
        by_cases hq : rid ∈ rec0.requests
        · rw [if_pos hq, he]
          simp [hr]
        · rw [if_neg hq]
          exact he

theorem inv_dispatch (st : ServerState) (cid0 rid0 : String) (hInv : Inv st)
    (hfresh : rid0 ∉ st.usedIds) : Inv (dispatchRequest cid0 rid0 st) := by
  cases hr0 : getRecord st cid0 with
  | none =>
    have he : dispatchRequest cid0 rid0 st = st := by
      unfold dispatchRequest
      rw [hr0]
    rw [he]
    exact hInv
  | some rec0 =>
    have hta : (dispatchRequest cid0 rid0 st).tasks =
        mapSet st.tasks rid0 ⟨cid0, rec0.gen, .pending⟩ := by
      unfold dispatchRequest
      rw [hr0]
    have hwr : (dispatchRequest cid0 rid0 st).writers = st.writers := by
      unfold dispatchRequest
      rw [hr0]
    have hcl : (dispatchRequest cid0 rid0 st).clients =
        updateRecord st.clients cid0
          (fun r => { r with requests := insert rid0 r.requests }) := by
      unfold dispatchRequest
      rw [hr0]
    have husd : (dispatchRequest cid0 rid0 st).usedIds = insert rid0 st.usedIds := by
      unfold dispatchRequest
      rw [hr0]
    have hrec : ∀ cid, getRecord (dispatchRequest cid0 rid0 st) cid =
        if cid = cid0 then some { rec0 with requests := insert rid0 rec0.requests }
        else getRecord st cid := by
      intro cid
      by_cases h : cid = cid0
      · subst h
        rw [if_pos rfl]
        apply getRecord_of_getSlot_live
        rw [hcl, getSlot_updateRecord_self, getSlot_live_of_getRecord st cid rec0 hr0]
        rfl
      · rw [if_neg h]
        exact getRecord_clients_eq st _ cid
          (by rw [hcl]; exact getSlot_updateRecord_ne _ _ _ _ h)
    refine ⟨?_, ?_, ?_, ?_, ?_, ?_, ?_, ?_⟩
    · rw [hcl, keys_updateRecord]
      exact hInv.nodupKeys
    · intro rid e h
      rw [hta] at h
      rw [husd, Finset.mem_insert]
      rw [mapSet] at h
      by_cases hr : rid = rid0
      · exact Or.inl hr
      · rw [if_neg hr] at h
        exact Or.inr (hInv.taskUsed rid e h)
    · intro rid b h
      rw [hwr] at h
      rw [husd, Finset.mem_insert]
      exact Or.inr (hInv.writerUsed rid b h)
    · intro cid rec h rid hm
      rw [hrec] at h
      rw [husd, Finset.mem_insert]
      by_cases hc : cid = cid0
      · rw [if_pos hc] at h
        have h2 := Option.some.inj h
        rw [← h2] at hm
        simp only [Finset.mem_insert] at hm
        rcases hm with rfl | hm
        · exact Or.inl rfl
        · exact Or.inr (hInv.requestsUsed cid0 rec0 hr0 rid hm)
      · rw [if_neg hc] at h
        exact Or.inr (hInv.requestsUsed cid rec h rid hm)
    · intro cid rec h rid hm
      rw [hrec] at h
      rw [husd, Finset.mem_insert]
      by_cases hc : cid = cid0
      · rw [if_pos hc] at h
        have h2 := Option.some.inj h
        rw [← h2] at hm
        exact Or.inr (hInv.responsesUsed cid0 rec0 hr0 rid hm)
      · rw [if_neg hc] at h
        exact Or.inr (hInv.responsesUsed cid rec h rid hm)
    · intro cid rec h rid hm e he
      rw [hrec] at h
      rw [hta, mapSet] at he
      by_cases hc : cid = cid0
      · rw [if_pos hc] at h
        have h2 := Option.some.inj h
        subst hc
        by_cases hr : rid = rid0
        · rw [if_pos hr] at he
          have h3 := Option.some.inj he
          rw [← h3, ← h2]
          exact ⟨rfl, rfl⟩
        · rw [if_neg hr] at he
          rw [← h2] at hm
          simp only [Finset.mem_insert] at hm
          rcases hm with rfl | hm
          · exact absurd rfl hr
          · have hg := hInv.taskGen cid rec0 hr0 rid hm e he
            rw [← h2]
            exact hg
      · rw [if_neg hc] at h
        by_cases hr : rid = rid0
        · subst hr
          exact absurd (hInv.requestsUsed cid rec h rid hm) hfresh
        · rw [if_neg hr] at he
          exact hInv.taskGen cid rec h rid hm e he
    · intro rid b e hw ht
      rw [hwr] at hw
      rw [hta, mapSet] at ht
      by_cases hr : rid = rid0
      · subst hr
        exact absurd (hInv.writerUsed rid b hw) hfresh
      · rw [if_neg hr] at ht
        exact hInv.writerResolved rid b e hw ht
    · intro cid rec h rid hm1 hm2
      rw [hrec] at h
      by_cases hc : cid = cid0
      · rw [if_pos hc] at h
        have h2 := Option.some.inj h
        rw [← h2] at hm1 hm2
        simp only [Finset.mem_insert] at hm1
        rcases hm1 with rfl | hm1
        · exact absurd (hInv.responsesUsed cid0 rec0 hr0 rid hm2) hfresh
        · obtain ⟨e, r, he, hr⟩ := hInv.overlap cid0 rec0 hr0 rid hm1 hm2
          refine ⟨e, r, ?_, hr⟩
          rw [hta, mapSet]
          have hne : rid ≠ rid0 := by
            intro hh
            subst hh
            exact absurd (hInv.requestsUsed cid0 rec0 hr0 rid hm1) hfresh
          rw [if_neg hne]
          exact he
      · rw [if_neg hc] at h
        obtain ⟨e, r, he, hr⟩ := hInv.overlap cid rec h rid hm1 hm2
        refine ⟨e, r, ?_, hr⟩
        rw [hta, mapSet]
        have hne : rid ≠ rid0 := by
          intro hh
          subst hh
          exact absurd (hInv.requestsUsed cid rec h rid hm1) hfresh
        rw [if_neg hne]
        exact he

theorem getRecord_updateRecord (st st2 : ServerState) (cid0 : String)
    (f : ClientRecord → ClientRecord)
    (h : st2.clients = updateRecord st.clients cid0 f) (cid : String) :
    getRecord st2 cid =
      if cid = cid0 then (getRecord st cid).map f else getRecord st cid := by
  by_cases hc : cid = cid0
  · subst hc
    rw [if_pos rfl]
    unfold getRecord
    rw [h, getSlot_updateRecord_self]
    cases getSlot st.clients cid with
    | none => rfl
    | some w => cases w <;> rfl
  · rw [if_neg hc]
    exact getRecord_clients_eq st st2 cid
      (by rw [h]; exact getSlot_updateRecord_ne _ _ _ _ hc)

theorem resolveTask_eq (tasks : String → Option TaskEntry) (rid0 rid : String)
    (r : Resolution) :
    resolveTask tasks rid0 r rid =
      if rid = rid0 then
        (tasks rid0).map fun e =>
          if e.status = .pending then { e with status := .resolved r } else e
      else tasks rid := rfl

theorem processResponseMessage_header_eq (cid0 : String) (st : ServerState)
    (rid0 : String) (status : Nat) (statusText : String)
    (headers : List (String × String)) (eof : Bool) :
    processResponseMessage (.header rid0 status statusText headers eof) cid0 st =
      (match st.tasks rid0 with
      | none => st
      | some _ =>
        if eof then
          { st with tasks := resolveTask st.tasks rid0 (.bodyless status statusText headers) }
        else
          { st with
            tasks := resolveTask st.tasks rid0 (.streaming status statusText headers),
            writers := mapSet st.writers rid0 true,
            clients := updateRecord st.clients cid0
              fun r => { r with responses := insert rid0 r.responses } }) := rfl

theorem processResponseMessage_body_eq (cid0 : String) (st : ServerState)
    (rid0 : String) (data : Option (List Nat)) (eof : Bool) :
    processResponseMessage (.body rid0 data eof) cid0 st =
      (match st.writers rid0 with
      | none => st
      | some _ =>
        if eof then
          { st with
            writers := mapDel st.writers rid0,
            clients := updateRecord st.clients cid0
              fun r => { r with responses := r.responses.erase rid0 } }
        else st) := rfl

theorem cleanupRequest_eq (rid0 : String) (st : ServerState) :
    cleanupRequest rid0 st =
      (match st.tasks rid0 with
      | none => st
      | some e =>
        { st with
          tasks := mapDel st.tasks rid0,
          clients := updateRecord st.clients e.clientId fun r =>
            if r.gen = e.gen then { r with requests := r.requests.erase rid0 }
            else r }) := rfl

theorem inv_cleanup (st : ServerState) (rid0 : String) (hInv : Inv st) :
    Inv (cleanupRequest rid0 st) := by
  cases hg : st.tasks rid0 with
  | none =>
    have he : cleanupRequest rid0 st = st := by
      rw [cleanupRequest_eq, hg]
    rw [he]
    exact hInv
  | some e0 =>
    have hta : (cleanupRequest rid0 st).tasks = mapDel st.tasks rid0 := by
      rw [cleanupRequest_eq, hg]
    have hwr : (cleanupRequest rid0 st).writers = st.writers := by
      rw [cleanupRequest_eq, hg]
    have hcl : (cleanupRequest rid0 st).clients =
        updateRecord st.clients e0.clientId
          (fun r => if r.gen = e0.gen then { r with requests := r.requests.erase rid0 }
            else r) := by
      rw [cleanupRequest_eq, hg]
    have husd : (cleanupRequest rid0 st).usedIds = st.usedIds := by
      rw [cleanupRequest_eq, hg]
    have hrec := getRecord_updateRecord st _ e0.clientId
      (fun r => if r.gen = e0.gen then { r with requests := r.requests.erase rid0 }
        else r) hcl
    have hsub : ∀ a : ClientRecord, ∀ rid2 : String,
        rid2 ∈ (if a.gen = e0.gen then { a with requests := a.requests.erase rid0 }
          else a).requests → rid2 ∈ a.requests := by
      intro a rid2 hm
      split_ifs at hm
      · exact Finset.mem_of_mem_erase hm
      · exact hm
    have hres : ∀ a : ClientRecord,
        (if a.gen = e0.gen then { a with requests := a.requests.erase rid0 }
          else a).responses = a.responses := by
      intro a
      split_ifs <;> rfl
    have hgen2 : ∀ a : ClientRecord,
        (if a.gen = e0.gen then { a with requests := a.requests.erase rid0 }
          else a).gen = a.gen := by
      intro a
      split_ifs <;> rfl
    have htd : ∀ rid : String, ∀ e : TaskEntry,
        (cleanupRequest rid0 st).tasks rid = some e →
        rid ≠ rid0 ∧ st.tasks rid = some e := by
      intro rid e h
      rw [hta, mapDel] at h
      by_cases hr : rid = rid0
      · rw [if_pos hr] at h
        cases h
      · rw [if_neg hr] at h
        exact ⟨hr, h⟩
    refine ⟨?_, ?_, ?_, ?_, ?_, ?_, ?_, ?_⟩
    · rw [hcl, keys_updateRecord]
      exact hInv.nodupKeys
    · intro rid e h
      obtain ⟨_, h2⟩ := htd rid e h
      rw [husd]
      exact hInv.taskUsed rid e h2
    · intro rid b h
      rw [hwr] at h
      rw [husd]
      exact hInv.writerUsed rid b h
    · intro cid rec h rid hm
      rw [hrec] at h
      rw [husd]
      by_cases hc : cid = e0.clientId
      · rw [if_pos hc] at h
        obtain ⟨a, ha, hf⟩ := Option.map_eq_some'.mp h
        rw [← hf] at hm
        exact hInv.requestsUsed cid a ha rid (hsub a rid (by simpa using hm))
      · rw [if_neg hc] at h
        exact hInv.requestsUsed cid rec h rid hm
    · intro cid rec h rid hm
      rw [hrec] at h
      rw [husd]
      by_cases hc : cid = e0.clientId
      · rw [if_pos hc] at h
        obtain ⟨a, ha, hf⟩ := Option.map_eq_some'.mp h
        rw [← hf] at hm
        have hm2 : rid ∈ a.responses := by
          rw [← hres a]
          simpa using hm
        exact hInv.responsesUsed cid a ha rid hm2
      · rw [if_neg hc] at h
        exact hInv.responsesUsed cid rec h rid hm
    · intro cid rec h rid hm e he
      obtain ⟨hne, he2⟩ := htd rid e he
      rw [hrec] at h
      by_cases hc : cid = e0.clientId
      · rw [if_pos hc] at h
        obtain ⟨a, ha, hf⟩ := Option.map_eq_some'.mp h
        rw [← hf] at hm
        have hga := hInv.taskGen cid a ha rid (hsub a rid (by simpa using hm)) e he2
        refine ⟨hga.1, ?_⟩
        rw [← hf]
        have := hgen2 a
        simpa [this] using hga.2
      · rw [if_neg hc] at h
        exact hInv.taskGen cid rec h rid hm e he2
    · intro rid b e hw ht
      obtain ⟨_, ht2⟩ := htd rid e ht
      rw [hwr] at hw
      exact hInv.writerResolved rid b e hw ht2
    · intro cid rec h rid hm1 hm2
      rw [hrec] at h
      by_cases hc : cid = e0.clientId
      · rw [if_pos hc] at h
        obtain ⟨a, ha, hf⟩ := Option.map_eq_some'.mp h
        rw [← hf] at hm1 hm2
        have hm2a : rid ∈ a.responses := by
          rw [← hres a]
          simpa using hm2
        by_cases hgen : a.gen = e0.gen
        · have hm1a : rid ∈ a.requests.erase rid0 := by
            have := hm1
            simp only [hgen, if_pos] at this
            simpa using this
          obtain ⟨hne, hm1b⟩ := Finset.mem_erase.mp hm1a
          obtain ⟨e, r, he, hr⟩ := hInv.overlap cid a ha rid hm1b hm2a
          refine ⟨e, r, ?_, hr⟩
          rw [hta, mapDel, if_neg hne]
          exact he
        · have hm1b : rid ∈ a.requests := hsub a rid (by simpa using hm1)
          obtain ⟨e, r, he, hr⟩ := hInv.overlap cid a ha rid hm1b hm2a
          have hne : rid ≠ rid0 := by
            intro hq
            subst hq
            have hee : e = e0 := by
              rw [hg] at he
              exact (Option.some.inj he).symm
            subst hee
            have hga := hInv.taskGen cid a ha rid hm1b e hg
            exact hgen hga.2.symm
          refine ⟨e, r, ?_, hr⟩
          rw [hta, mapDel, if_neg hne]
          exact he
      · rw [if_neg hc] at h
        obtain ⟨e, r, he, hr⟩ := hInv.overlap cid rec h rid hm1 hm2
        have hne : rid ≠ rid0 := by
          intro hq
          subst hq
          have hee : e = e0 := by
            rw [hg] at he
            exact (Option.some.inj he).symm
          subst hee
          have hga := hInv.taskGen cid rec h rid hm1 e hg
          exact hc hga.1.symm
        refine ⟨e, r, ?_, hr⟩
        rw [hta, mapDel, if_neg hne]
        exact he

theorem inv_resp (st : ServerState) (cid0 : String) (m : RespMsg) (hInv : Inv st) :
    Inv (processResponseMessage m cid0 st) := by
  cases m with
  | header rid0 status statusText headers eof =>
    cases hg : st.tasks rid0 with
    | none =>
      have he : processResponseMessage (.header rid0 status statusText headers eof)
          cid0 st = st := by
        rw [processResponseMessage_header_eq, hg]
      rw [he]
      exact hInv
    | some e0 =>
      cases eof with
      | true =>
        have hta : (processResponseMessage
            (.header rid0 status statusText headers true) cid0 st).tasks =
            resolveTask st.tasks rid0 (.bodyless status statusText headers) := by
          rw [processResponseMessage_header_eq, hg]
          rfl
        have hwr : (processResponseMessage
            (.header rid0 status statusText headers true) cid0 st).writers =
            st.writers := by
          rw [processResponseMessage_header_eq, hg]
          rfl
        have hcl : (processResponseMessage
            (.header rid0 status statusText headers true) cid0 st).clients =
            st.clients := by
          rw [processResponseMessage_header_eq, hg]
          rfl
        have husd : (processResponseMessage
            (.header rid0 status statusText headers true) cid0 st).usedIds =
            st.usedIds := by
          rw [processResponseMessage_header_eq, hg]
          rfl
        have hrec : ∀ cid, getRecord (processResponseMessage
            (.header rid0 status statusText headers true) cid0 st) cid =
            getRecord st cid := by
          intro cid
          exact getRecord_clients_eq st _ cid (by rw [hcl])
        refine ⟨?_, ?_, ?_, ?_, ?_, ?_, ?_, ?_⟩
        · rw [hcl]
          exact hInv.nodupKeys
        · intro rid e h
          rw [hta, resolveTask_eq] at h
          rw [husd]
          by_cases hr : rid = rid0
          · rw [if_pos hr] at h
            obtain ⟨a, ha, _⟩ := Option.map_eq_some'.mp h
            rw [hr]
            exact hInv.taskUsed rid0 a ha
          · rw [if_neg hr] at h
            exact hInv.taskUsed rid e h
        · intro rid b h
          rw [hwr] at h
          rw [husd]
          exact hInv.writerUsed rid b h
        · intro cid rec h rid hm
          rw [hrec] at h
          rw [husd]
          exact hInv.requestsUsed cid rec h rid hm
        · intro cid rec h rid hm
          rw [hrec] at h
          rw [husd]
          exact hInv.responsesUsed cid rec h rid hm
        · intro cid rec h rid hm e he
          rw [hrec] at h
          rw [hta, resolveTask_eq] at he
          by_cases hr : rid = rid0
          · rw [if_pos hr] at he
            obtain ⟨a, ha, hf⟩ := Option.map_eq_some'.mp he
            subst hr
            have hga := hInv.taskGen cid rec h rid hm a ha
            rw [← hf]
            constructor
            · split_ifs <;> simpa using hga.1
            · split_ifs <;> simpa using hga.2
          · rw [if_neg hr] at he
            exact hInv.taskGen cid rec h rid hm e he
        · intro rid b e hw ht
          rw [hwr] at hw
          rw [hta, resolveTask_eq] at ht
          by_cases hr : rid = rid0
          · rw [if_pos hr] at ht
            obtain ⟨a, ha, hf⟩ := Option.map_eq_some'.mp ht
            subst hr
            have hold := hInv.writerResolved rid b a hw ha
            rw [← hf]
            split_ifs with hp
            · simp
            · simpa using hold
          · rw [if_neg hr] at ht
            exact hInv.writerResolved rid b e hw ht
        · intro cid rec h rid hm1 hm2
          rw [hrec] at h
          obtain ⟨e, r, he, hr⟩ := hInv.overlap cid rec h rid hm1 hm2
          refine ⟨e, r, ?_, hr⟩
          rw [hta, resolveTask_eq]
          by_cases hq : rid = rid0
          · subst hq
            rw [if_pos rfl, he]
            simp [hr]
          · rw [if_neg hq]
            exact he
      | false =>
        have hta : (processResponseMessage
            (.header rid0 status statusText headers false) cid0 st).tasks =
            resolveTask st.tasks rid0 (.streaming status statusText headers) := by
          rw [processResponseMessage_header_eq, hg]
          rfl
        have hwr : (processResponseMessage
            (.header rid0 status statusText headers false) cid0 st).writers =
            mapSet st.writers rid0 true := by
          rw [processResponseMessage_header_eq, hg]
          rfl
        have hcl : (processResponseMessage
            (.header rid0 status statusText headers false) cid0 st).clients =
            updateRecord st.clients cid0
              (fun r => { r with responses := insert rid0 r.responses }) := by
          rw [processResponseMessage_header_eq, hg]
          rfl
        have husd : (processResponseMessage
            (.header rid0 status statusText headers false) cid0 st).usedIds =
            st.usedIds := by
          rw [processResponseMessage_header_eq, hg]
          rfl
        have hrec := getRecord_updateRecord st _ cid0
          (fun r => { r with responses := insert rid0 r.responses }) hcl
        refine ⟨?_, ?_, ?_, ?_, ?_, ?_, ?_, ?_⟩
        · rw [hcl, keys_updateRecord]
          exact hInv.nodupKeys
        · intro rid e h
          rw [hta, resolveTask_eq] at h
          rw [husd]
          by_cases hr : rid = rid0
          · rw [if_pos hr] at h
            obtain ⟨a, ha, _⟩ := Option.map_eq_some'.mp h
            rw [hr]
            exact hInv.taskUsed rid0 a ha
          · rw [if_neg hr] at h
            exact hInv.taskUsed rid e h
        · intro rid b h
          rw [hwr, mapSet] at h
          rw [husd]
          by_cases hr : rid = rid0
          · subst hr
            exact hInv.taskUsed rid e0 hg
          · rw [if_neg hr] at h
            exact hInv.writerUsed rid b h
        · intro cid rec h rid hm
          rw [hrec] at h
          rw [husd]
          by_cases hc : cid = cid0
          · rw [if_pos hc] at h
            obtain ⟨a, ha, hf⟩ := Option.map_eq_some'.mp h
            rw [← hf] at hm
            exact hInv.requestsUsed cid a ha rid (by simpa using hm)
          · rw [if_neg hc] at h
            exact hInv.requestsUsed cid rec h rid hm
        · intro cid rec h rid hm
          rw [hrec] at h
          rw [husd]
          by_cases hc : cid = cid0
          · rw [if_pos hc] at h
            obtain ⟨a, ha, hf⟩ := Option.map_eq_some'.mp h
            rw [← hf] at hm
            simp only [Finset.mem_insert] at hm
            rcases hm with rfl | hm
            · exact hInv.taskUsed rid e0 hg
            · exact hInv.responsesUsed cid a ha rid (by simpa using hm)
          · rw [if_neg hc] at h
            exact hInv.responsesUsed cid rec h rid hm
        · intro cid rec h rid hm e he
          rw [hrec] at h
          rw [hta, resolveTask_eq] at he
          have hstep : ∀ a, getRecord st cid = some a → rid ∈ a.requests →
              rec.gen = a.gen → e.clientId = cid ∧ e.gen = rec.gen := by
            intro a ha hma hgen
            by_cases hr : rid = rid0
            · rw [if_pos hr] at he
              obtain ⟨a2, ha2, hf⟩ := Option.map_eq_some'.mp he
              subst hr
              have hga := hInv.taskGen cid a ha rid hma a2 ha2
              rw [← hf, hgen]
              constructor
              · split_ifs <;> simpa using hga.1
              · split_ifs <;> simpa using hga.2
            · rw [if_neg hr] at he
              have hga := hInv.taskGen cid a ha rid hma e he
              rw [hgen]
              exact hga
          by_cases hc : cid = cid0
          · rw [if_pos hc] at h
            obtain ⟨a, ha, hf⟩ := Option.map_eq_some'.mp h
            rw [← hf] at hm
            exact hstep a ha (by simpa using hm) (by rw [← hf])
          · rw [if_neg hc] at h
            exact hstep rec h hm rfl
        · intro rid b e hw ht
          rw [hwr, mapSet] at hw
          rw [hta, resolveTask_eq] at ht
          by_cases hr : rid = rid0
          · subst hr
            rw [if_pos rfl, hg] at ht
            have he2 : e = if e0.status = .pending
                then { e0 with status := .resolved (.streaming status statusText headers) }
                else e0 := by
              have := Option.some.inj ht
              rw [← this]
            rw [he2]
            split_ifs with hp
            · simp
            · simpa using hp
          · rw [if_neg hr] at hw ht
            exact hInv.writerResolved rid b e hw ht
        · intro cid rec h rid hm1 hm2
          rw [hrec] at h
          have hres : rid = rid0 →
              ∃ e r, (processResponseMessage
                (.header rid0 status statusText headers false) cid0 st).tasks rid =
                  some e ∧ e.status = .resolved r := by
            intro hr
            subst hr
            rw [hta, resolveTask_eq, if_pos rfl, hg]
            cases hp : e0.status with
            | pending =>
              refine ⟨_, .streaming status statusText headers, rfl, ?_⟩
              simp [hp]
            | resolved r0 =>
              refine ⟨_, r0, rfl, ?_⟩
              simp [hp]
          by_cases hc : cid = cid0
          · rw [if_pos hc] at h
            obtain ⟨a, ha, hf⟩ := Option.map_eq_some'.mp h
            rw [← hf] at hm1 hm2
            simp only [Finset.mem_insert] at hm2
            have hm1a : rid ∈ a.requests := by simpa using hm1
            rcases hm2 with rfl | hm2
            · exact hres rfl
            · obtain ⟨e, r, he, hr⟩ :=
                hInv.overlap cid a ha rid hm1a (by simpa using hm2)
              by_cases hq : rid = rid0
              · exact hres hq
              · refine ⟨e, r, ?_, hr⟩
                rw [hta, resolveTask_eq, if_neg hq]
                exact he
          · rw [if_neg hc] at h
            obtain ⟨e, r, he, hr⟩ := hInv.overlap cid rec h rid hm1 hm2
            by_cases hq : rid = rid0
            · exact hres hq
            · refine ⟨e, r, ?_, hr⟩
              rw [hta, resolveTask_eq, if_neg hq]
              exact he
  | body rid0 data eof =>
    cases hg : st.writers rid0 with
    | none =>
      have he : processResponseMessage (.body rid0 data eof) cid0 st = st := by
        rw [processResponseMessage_body_eq, hg]
      rw [he]
      exact hInv
    | some w0 =>
      cases eof with
      | false =>
        have he : processResponseMessage (.body rid0 data false) cid0 st = st := by
          rw [processResponseMessage_body_eq, hg]
          rfl
        rw [he]
        exact hInv
      | true =>
        have hta : (processResponseMessage (.body rid0 data true) cid0 st).tasks =
            st.tasks := by
          rw [processResponseMessage_body_eq, hg]
          rfl
        have hwr : (processResponseMessage (.body rid0 data true) cid0 st).writers =
            mapDel st.writers rid0 := by
          rw [processResponseMessage_body_eq, hg]
          rfl
        have hcl : (processResponseMessage (.body rid0 data true) cid0 st).clients =
            updateRecord st.clients cid0
              (fun r => { r with responses := r.responses.erase rid0 }) := by
          rw [processResponseMessage_body_eq, hg]
          rfl
        have husd : (processResponseMessage (.body rid0 data true) cid0 st).usedIds =
            st.usedIds := by
          rw [processResponseMessage_body_eq, hg]
          rfl
        have hrec := getRecord_updateRecord st _ cid0
          (fun r => { r with responses := r.responses.erase rid0 }) hcl
        refine ⟨?_, ?_, ?_, ?_, ?_, ?_, ?_, ?_⟩
        · rw [hcl, keys_updateRecord]
          exact hInv.nodupKeys
        · intro rid e h
          rw [hta] at h
          rw [husd]
          exact hInv.taskUsed rid e h
        · intro rid b h
          rw [hwr, mapDel] at h
          rw [husd]
          by_cases hr : rid = rid0
          · rw [if_pos hr] at h
            cases h
          · rw [if_neg hr] at h
            exact hInv.writerUsed rid b h
        · intro cid rec h rid hm
          rw [hrec] at h
          rw [husd]
          by_cases hc : cid = cid0
          · rw [if_pos hc] at h
            obtain ⟨a, ha, hf⟩ := Option.map_eq_some'.mp h
            rw [← hf] at hm
            exact hInv.requestsUsed cid a ha rid (by simpa using hm)
          · rw [if_neg hc] at h
            exact hInv.requestsUsed cid rec h rid hm
        · intro cid rec h rid hm
          rw [hrec] at h
          rw [husd]
          by_cases hc : cid = cid0
          · rw [if_pos hc] at h
            obtain ⟨a, ha, hf⟩ := Option.map_eq_some'.mp h
            rw [← hf] at hm
            have hm2 : rid ∈ a.responses :=
              Finset.mem_of_mem_erase (by simpa using hm)
            exact hInv.responsesUsed cid a ha rid hm2
          · rw [if_neg hc] at h
            exact hInv.responsesUsed cid rec h rid hm
        · intro cid rec h rid hm e he
          rw [hrec] at h
          rw [hta] at he
          by_cases hc : cid = cid0
          · rw [if_pos hc] at h
            obtain ⟨a, ha, hf⟩ := Option.map_eq_some'.mp h
            rw [← hf] at hm
            have hga := hInv.taskGen cid a ha rid (by simpa using hm) e he
            rw [← hf]
            exact hga
          · rw [if_neg hc] at h
            exact hInv.taskGen cid rec h rid hm e he
        · intro rid b e hw ht
          rw [hwr, mapDel] at hw
          rw [hta] at ht
          by_cases hr : rid = rid0
          · rw [if_pos hr] at hw
            cases hw
          · rw [if_neg hr] at hw
            exact hInv.writerResolved rid b e hw ht
        · intro cid rec h rid hm1 hm2
          rw [hrec] at h
          by_cases hc : cid = cid0
          · rw [if_pos hc] at h
            obtain ⟨a, ha, hf⟩ := Option.map_eq_some'.mp h
            rw [← hf] at hm1 hm2
            have hm2a : rid ∈ a.responses :=
              Finset.mem_of_mem_erase (by simpa using hm2)
            obtain ⟨e, r, he, hr⟩ :=
              hInv.overlap cid a ha rid (by simpa using hm1) hm2a
            refine ⟨e, r, ?_, hr⟩
            rw [hta]
            exact he
          · rw [if_neg hc] at h
            obtain ⟨e, r, he, hr⟩ := hInv.overlap cid rec h rid hm1 hm2
            refine ⟨e, r, ?_, hr⟩
            rw [hta]
            exact he

theorem inv_applyEvent (st : ServerState) (e : Event) (hInv : Inv st)
    (hleg : legalEvent st e = true) : Inv (applyEvent st e) := by
  cases e with
  | connOpen cid => exact inv_open st cid hInv
  | connClose cid => exact inv_close st cid hInv
  | dispatch cid rid =>
    have hfresh : rid ∉ st.usedIds := by
      rw [legalEvent] at hleg
      simp only [Bool.and_eq_true, Bool.not_eq_true'] at hleg
      simpa using hleg.2
    exact inv_dispatch st cid rid hInv hfresh
  | respMsg cid m => exact inv_resp st cid m hInv
  | cleanup rid => exact inv_cleanup st rid hInv

theorem inv_run (st : ServerState) (tr : List Event) (hInv : Inv st)
    (hleg : legalTrace st tr = true) : Inv (run st tr) := by
  induction tr generalizing st with
  | nil => exact hInv
  | cons e tl ih =>
    rw [legalTrace, Bool.and_eq_true] at hleg
    rw [run]
    exact ih (applyEvent st e) (inv_applyEvent st e hInv hleg.1) hleg.2

theorem inv_reachable (st : ServerState) (h : Reachable st) : Inv st := by
  obtain ⟨tr, hleg, hrun⟩ := h
  rw [← hrun]
  exact inv_run initState tr inv_initState hleg

/-- Counterexample to C3 as stated: the legal trace open, dispatch,
response-header with eof=false reaches a state whose (only) live record
holds the id "r" in `requests` and in `responses` at once — the spec's
disjointness claim fails in exactly the resolve-to-cleanup window it
says it covers. -/
theorem c3_counterexample :
    legalTrace initState
      [.connOpen "c", .dispatch "c" "r",
       .respMsg "c" (.header "r" 200 "OK" [] false)] = true ∧
    ∃ rec, getRecord (run initState
      [.connOpen "c", .dispatch "c" "r",
       .respMsg "c" (.header "r" 200 "OK" [] false)]) "c" = some rec ∧
      "r" ∈ rec.requests ∧ "r" ∈ rec.responses := by
  refine ⟨by decide, ⟨0, {"r"}, {"r"}⟩, by decide, by decide, by decide⟩

/-- C3: amended overlap invariant.  In every reachable server state, an
id held by a live record in both `requests` and `responses` always has
its task still in the task map and already resolved: the overlap is
exactly the transient window between the assembler resolving the task
for an eof=false response header and the dispatcher's cleanup, which
erases the id from `requests` and restores disjointness. -/
theorem c3_overlap_resolved (st : ServerState) (h : Reachable st)
    (cid : String) (rec : ClientRecord) (hrec : getRecord st cid = some rec)
    (rid : String) (hm1 : rid ∈ rec.requests) (hm2 : rid ∈ rec.responses) :
    ∃ e r, st.tasks rid = some e ∧ e.status = .resolved r :=
  (inv_reachable st h).overlap cid rec hrec rid hm1 hm2

/-- The amended C3 invariant applied at the state the counterexample
trace reaches. -/
theorem c3_overlap_resolved_witness :
    ∃ e r, (run initState
      [.connOpen "c", .dispatch "c" "r",
       .respMsg "c" (.header "r" 200 "OK" [] false)]).tasks "r" = some e ∧
      e.status = .resolved r :=
  c3_overlap_resolved
    (run initState
      [.connOpen "c", .dispatch "c" "r",
       .respMsg "c" (.header "r" 200 "OK" [] false)])
    ⟨[.connOpen "c", .dispatch "c" "r",
      .respMsg "c" (.header "r" 200 "OK" [] false)], by decide, rfl⟩
    "c" ⟨0, {"r"}, {"r"}⟩ (by decide) "r" (by decide) (by decide)

/-- C6: on timeout the dispatcher answers 504 "Gateway Timeout" with
body "Proxy client timeout" (no body when the route suppresses one, i.e.
for HEAD/OPTIONS); for every outcome of the race the task is removed
from the task map and the id erased from the chosen client's current
record (its `gen` matching the task's); and both kinds of late response
frames for that id leave the post-cleanup state untouched: the header
frame finds no task, and the body frame finds no writer because a
reachable state gives a pending task no writer. -/
theorem c6_timeout_cleanup (st : ServerState) (rid : String) (e : TaskEntry)
    (rec : ClientRecord) (respBody : Bool)
    (hreach : Reachable st) (ht : st.tasks rid = some e)
    (hp : e.status = .pending)
    (hrec : getRecord st e.clientId = some rec) (hgen : rec.gen = e.gen) :
    (finishRequest st rid .timeout respBody).1 =
      .response 504 "Gateway Timeout"
        (if respBody then some "Proxy client timeout" else none) ∧
    (∀ outcome : AwaitOutcome,
      (finishRequest st rid outcome respBody).2.tasks rid = none ∧
      getRecord (finishRequest st rid outcome respBody).2 e.clientId =
        some { rec with requests := rec.requests.erase rid }) ∧
    (∀ cid2 status statusText headers eof,
      processResponseMessage (.header rid status statusText headers eof) cid2
        (finishRequest st rid .timeout respBody).2 =
      (finishRequest st rid .timeout respBody).2) ∧
    (∀ cid2 data eof,
      processResponseMessage (.body rid data eof) cid2
        (finishRequest st rid .timeout respBody).2 =
      (finishRequest st rid .timeout respBody).2) := by
  have hpost : ∀ outcome : AwaitOutcome,
      (finishRequest st rid outcome respBody).2 = cleanupRequest rid st := by
    intro outcome
    cases outcome <;> rfl
  have hcl : (cleanupRequest rid st).clients =
      updateRecord st.clients e.clientId
        (fun r => if r.gen = e.gen then { r with requests := r.requests.erase rid }
          else r) := by
    rw [cleanupRequest_eq, ht]
  have hta : (cleanupRequest rid st).tasks = mapDel st.tasks rid := by
    rw [cleanupRequest_eq, ht]
  have hwrs : (cleanupRequest rid st).writers = st.writers := by
    rw [cleanupRequest_eq, ht]
  have htn : (cleanupRequest rid st).tasks rid = none := by
    rw [hta, mapDel, if_pos rfl]
  have hwnone : st.writers rid = none := by
    cases hw : st.writers rid with
    | none => rfl
    | some b =>
      exact absurd hp ((inv_reachable st hreach).writerResolved rid b e hw ht)
  refine ⟨rfl, ?_, ?_, ?_⟩
  · intro outcome
    rw [hpost outcome]
    refine ⟨htn, ?_⟩
    rw [getRecord_updateRecord st (cleanupRequest rid st) e.clientId _ hcl
      e.clientId, if_pos rfl, hrec]
    simp [hgen]
  · intro cid2 status statusText headers eof
    rw [hpost .timeout, processResponseMessage_header_eq, htn]
  · intro cid2 data eof
    have hw2 : (cleanupRequest rid st).writers rid = none := by
      rw [hwrs]
      exact hwnone
    rw [hpost .timeout, processResponseMessage_body_eq, hw2]

/-- C6 applied at the reachable state with one live client and one
dispatched pending request. -/
theorem c6_timeout_cleanup_witness :
    (finishRequest (run initState [.connOpen "c", .dispatch "c" "r"])
        "r" .timeout true).1 =
      .response 504 "Gateway Timeout"
        (if true then some "Proxy client timeout" else none) ∧
    (∀ outcome : AwaitOutcome,
      (finishRequest (run initState [.connOpen "c", .dispatch "c" "r"])
          "r" outcome true).2.tasks "r" = none ∧
      getRecord (finishRequest (run initState [.connOpen "c", .dispatch "c" "r"])
          "r" outcome true).2
        (TaskEntry.clientId ⟨"c", 0, .pending⟩) =
        some { (⟨0, {"r"}, ∅⟩ : ClientRecord) with
          requests := Finset.erase {"r"} "r" }) ∧
    (∀ cid2 status statusText headers eof,
      processResponseMessage (.header "r" status statusText headers eof) cid2
        (finishRequest (run initState [.connOpen "c", .dispatch "c" "r"])
          "r" .timeout true).2 =
      (finishRequest (run initState [.connOpen "c", .dispatch "c" "r"])
        "r" .timeout true).2) ∧
    (∀ cid2 data eof,
      processResponseMessage (.body "r" data eof) cid2
        (finishRequest (run initState [.connOpen "c", .dispatch "c" "r"])
          "r" .timeout true).2 =
      (finishRequest (run initState [.connOpen "c", .dispatch "c" "r"])
        "r" .timeout true).2) :=
  c6_timeout_cleanup (run initState [.connOpen "c", .dispatch "c" "r"])
    "r" ⟨"c", 0, .pending⟩ ⟨0, {"r"}, ∅⟩ true
    ⟨[.connOpen "c", .dispatch "c" "r"], by decide, rfl⟩
    (by decide) rfl (by decide) rfl

end Webrp
